import Mathlib

/-! # auto-check-dups: label canonicalisation and per-namespace collision registry

A shallow embedding of `main.go`:

* `map2str` turns a label map into its canonical identity string;
* `NamespaceRecord.AddServiceLabels` / `NamespaceRecord.AddAppLabels` register an
  identity under an owner label, first writer wins;
* `NamespaceRecordStore.Find` is the get-or-create lookup of a namespace record.

Go strings are embedded as Lean `String`s.  The order used by `sort.Strings` is the
lexicographic order of `String`, which on UTF-8 text is the byte-wise order of Go.

A Go `map[string]V` that has been allocated is embedded as an association list
`List (String × V)`: the order of the list is one possible iteration order of the map,
reading takes the first entry with the key, writing replaces that entry or adds one.
A map has each key once, which is the side condition `NodupKeys` below.
-/

namespace AutoCheckDups

/-! ## Go maps -/

/-- An allocated Go `map[string]string`. -/
abbrev GoMap := List (String × String)

/-- Each key occurs once, as in every Go map. -/
def NodupKeys {β : Type} (m : List (String × β)) : Prop := (m.map Prod.fst).Nodup

instance {β : Type} (m : List (String × β)) : Decidable (NodupKeys m) := by
  unfold NodupKeys; infer_instance

/-- The Go expression `m[k]` on a `map[string]string`: the stored value, or the zero value
`""` when `k` is not a key. -/
def mapIndex (m : GoMap) (k : String) : String :=
  match m.lookup k with
  | some v => v
  | none => ""

/-- The Go statement `m[k] = v`: overwrite the entry of `k` when there is one, add an entry
otherwise. -/
def mapAssign {β : Type} : List (String × β) → String → β → List (String × β)
  | [], k, v => [(k, v)]
  | (k', v') :: rest, k, v =>
    if k' = k then (k, v) :: rest else (k', v') :: mapAssign rest k v

/-! ## `map2str` -/

/-- The first loop of `map2str`: range over the keys of `m`, skip the empty key and the keys
whose value `m[k]` is empty, append the others to `keys`. -/
def collectKeys (m : GoMap) : List String :=
  (m.map Prod.fst).foldl
    (fun keys k => if k = "" then keys else if mapIndex m k = "" then keys else keys ++ [k])
    []

/-- Deciding `a ≤ b` on strings by comparing the character lists. -/
def strLeDec (a b : String) : Decidable (a ≤ b) :=
  decidable_of_iff (¬ b.data < a.data) (by
    rw [← not_lt, String.lt_iff_toList_lt]; rfl)

/-- The library call `sort.Strings`: the keys in increasing order. -/
def sortStrings (keys : List String) : List String :=
  @List.insertionSort String (fun a b => a ≤ b) strLeDec keys

/-- One round of the second loop of `map2str` on the builder contents `sb`. -/
def writePair (m : GoMap) (sb : String) (k : String) : String :=
  (((if sb.length > 0 then sb.push ',' else sb) ++ k).push '=') ++ mapIndex m k

/-- The function `map2str`. -/
def map2str (m : GoMap) : String :=
  (sortStrings (collectKeys m)).foldl (writePair m) ""

/-! ## Namespace records -/

/-- The struct `NamespaceRecord`.  Both map fields hold allocated maps, as in every record the
program builds (`Find` is the only place that builds one). -/
structure NamespaceRecord where
  Namespace : String
  AppLabels : GoMap
  ServiceLabels : GoMap
deriving DecidableEq, Repr

/-- The method `AddServiceLabels`.  `labels = none` is the nil map.  The result is the record
after the call and the returned `err` (`none` is the nil error, `some msg` an error whose
message is `msg`). -/
def NamespaceRecord.AddServiceLabels (r : NamespaceRecord) (labels : Option GoMap)
    (v : String) : NamespaceRecord × Option String :=
  match labels with
  | none => (r, none)
  | some m =>
    if m.length = 0 then (r, none)
    else
      let l := map2str m
      if mapIndex r.ServiceLabels l ≠ "" then
        (r, some ("service already existed: " ++ l ++ " -> " ++ mapIndex r.ServiceLabels l))
      else
        ({ r with ServiceLabels := mapAssign r.ServiceLabels l v }, none)

/-- The method `AddAppLabels`, with the same conventions as `AddServiceLabels`. -/
def NamespaceRecord.AddAppLabels (r : NamespaceRecord) (labels : Option GoMap)
    (v : String) : NamespaceRecord × Option String :=
  match labels with
  | none => (r, none)
  | some m =>
    if m.length = 0 then (r, none)
    else
      let l := map2str m
      if mapIndex r.AppLabels l ≠ "" then
        (r, some ("app already existed: " ++ l ++ " -> " ++ mapIndex r.AppLabels l))
      else
        ({ r with AppLabels := mapAssign r.AppLabels l v }, none)

/-! ## The store of namespace records -/

/-- The memory holding the records allocated so far.  A non-nil `*NamespaceRecord` is the
position of its record in this list; allocating a record appends it. -/
abbrev Heap := List NamespaceRecord

/-- The struct `NamespaceRecordStore`: `data` maps a namespace name to the pointer stored
for it.  Reading `data` at a name that is not a key gives the nil pointer, here `none`. -/
structure NamespaceRecordStore where
  data : List (String × Nat)
deriving DecidableEq, Repr

/-- The function `NewNamespaceRecordStore`. -/
def NewNamespaceRecordStore : NamespaceRecordStore := { data := [] }

/-- The method `Find` on the store `s` with memory `h`: the store and the memory after the
call, and the returned pointer. -/
def NamespaceRecordStore.Find (s : NamespaceRecordStore) (h : Heap) (ns : String) :
    NamespaceRecordStore × Heap × Nat :=
  match s.data.lookup ns with
  | some r => (s, h, r)
  | none =>
    ({ data := mapAssign s.data ns h.length },
      h ++ [{ Namespace := ns, ServiceLabels := [], AppLabels := [] }],
      h.length)

/-- The call `r.AddServiceLabels(labels, v)` through the pointer `r`: the memory after the call
and the returned error, or `none` when `r` points to no record. -/
def callAddServiceLabels (h : Heap) (r : Nat) (labels : Option GoMap) (v : String) :
    Option (Heap × Option String) :=
  match h[r]? with
  | none => none
  | some rec => some (h.set r (rec.AddServiceLabels labels v).1, (rec.AddServiceLabels labels v).2)

/-- The call `r.AddAppLabels(labels, v)` through the pointer `r`. -/
def callAddAppLabels (h : Heap) (r : Nat) (labels : Option GoMap) (v : String) :
    Option (Heap × Option String) :=
  match h[r]? with
  | none => none
  | some rec => some (h.set r (rec.AddAppLabels labels v).1, (rec.AddAppLabels labels v).2)

/-- The record that the store holds for a namespace, read through the stored pointer. -/
def recordOf (s : NamespaceRecordStore) (h : Heap) (ns : String) : Option NamespaceRecord :=
  match s.data.lookup ns with
  | some r => h[r]?
  | none => none

/-- The stored pointers point to records of the memory and no two entries share a pointer.
It holds of a new store and every operation keeps it. -/
def WellFormed (s : NamespaceRecordStore) (h : Heap) : Prop :=
  (∀ r ∈ s.data.map Prod.snd, r < h.length) ∧ (s.data.map Prod.snd).Nodup

instance (s : NamespaceRecordStore) (h : Heap) : Decidable (WellFormed s h) := by
  unfold WellFormed; infer_instance

/-- The body of the service loop of `main`, `r := store.Find(ns)` followed by
`r.AddServiceLabels(labels, v)`: the store and memory afterwards and the returned error. -/
def registerService (s : NamespaceRecordStore) (h : Heap) (ns : String)
    (labels : Option GoMap) (v : String) :
    Option (NamespaceRecordStore × Heap × Option String) :=
  match callAddServiceLabels (s.Find h ns).2.1 (s.Find h ns).2.2 labels v with
  | none => none
  | some (h', err) => some ((s.Find h ns).1, h', err)

/-- The body of the deployment and statefulset loops of `main`, `r := store.Find(ns)`
followed by `r.AddAppLabels(labels, v)`. -/
def registerApp (s : NamespaceRecordStore) (h : Heap) (ns : String)
    (labels : Option GoMap) (v : String) :
    Option (NamespaceRecordStore × Heap × Option String) :=
  match callAddAppLabels (s.Find h ns).2.1 (s.Find h ns).2.2 labels v with
  | none => none
  | some (h', err) => some ((s.Find h ns).1, h', err)

/-- One iteration of a loop of `main`: a registration of a selector under a namespace, for a
service or for an app (deployment or statefulset). -/
inductive Registration where
  | service (ns : String) (labels : Option GoMap) (v : String)
  | app (ns : String) (labels : Option GoMap) (v : String)
deriving DecidableEq, Repr

/-- Run one registration on the store and the memory. -/
def register (s : NamespaceRecordStore) (h : Heap) :
    Registration → Option (NamespaceRecordStore × Heap × Option String)
  | .service ns labels v => registerService s h ns labels v
  | .app ns labels v => registerApp s h ns labels v

/-- Run registrations one after the other, whatever errors they return, as the loops of
`main` do. -/
def registerAll (s : NamespaceRecordStore) (h : Heap) :
    List Registration → Option (NamespaceRecordStore × Heap)
  | [] => some (s, h)
  | c :: cs =>
    match register s h c with
    | none => none
    | some (s', h', _) => registerAll s' h' cs

/-- The effect of one registration on the record of the namespace `n`, taken alone: the
method is applied when the registration is under `n`, nothing happens otherwise. -/
def applyRegistration (n : String) (r : NamespaceRecord) : Registration → NamespaceRecord
  | .service ns labels v => if ns = n then (r.AddServiceLabels labels v).1 else r
  | .app ns labels v => if ns = n then (r.AddAppLabels labels v).1 else r

/-- What the service loop of `main` reads of one item of the service list: the namespace,
the name and the selector, which may be the nil map. -/
structure Service where
  Namespace : String
  Name : String
  Selector : Option GoMap
deriving DecidableEq, Repr

/-- The service loop of `main` over the items of the service list, in their order.  `log`
holds the lines printed so far; a line is the text that `log.Printf` formats, without the
time stamp that the logger puts in front. -/
def serviceLoop (s : NamespaceRecordStore) (h : Heap) :
    List Service → List String → Option (NamespaceRecordStore × Heap × List String)
  | [], log => some (s, h, log)
  | service :: rest, log =>
    match registerService s h service.Namespace service.Selector service.Name with
    | none => none
    | some (s', h', none) => serviceLoop s' h' rest log
    | some (s', h', some errLocal) =>
      serviceLoop s' h' rest
        (log ++ [service.Namespace ++ ": service " ++ service.Name ++ ": " ++ errLocal])

/-- The identity `map2str` gives for a selector that may be the nil map: ranging over the
nil map visits no key, as for the map without entries. -/
def identityOf (labels : Option GoMap) : String := map2str (labels.getD [])

/-- One call of the program on the store or on a record: `store.Find(ns)`, or one of the two
register methods through a pointer `r`. -/
inductive Call where
  | find (ns : String)
  | addServiceLabels (r : Nat) (labels : Option GoMap) (v : String)
  | addAppLabels (r : Nat) (labels : Option GoMap) (v : String)
deriving DecidableEq, Repr

/-- Run one call: the store and the memory afterwards, or `none` when the pointer of a
register call points to no record. -/
def runCall (s : NamespaceRecordStore) (h : Heap) :
    Call → Option (NamespaceRecordStore × Heap)
  | .find ns => some ((s.Find h ns).1, (s.Find h ns).2.1)
  | .addServiceLabels r labels v =>
    match callAddServiceLabels h r labels v with
    | none => none
    | some (h', _) => some (s, h')
  | .addAppLabels r labels v =>
    match callAddAppLabels h r labels v with
    | none => none
    | some (h', _) => some (s, h')

/-- Run calls one after the other. -/
def runCalls (s : NamespaceRecordStore) (h : Heap) :
    List Call → Option (NamespaceRecordStore × Heap)
  | [] => some (s, h)
  | c :: cs =>
    match runCall s h c with
    | none => none
    | some (s', h') => runCalls s' h' cs

/-- The pointer of a register call points to a record of the memory. -/
def Call.pointsToRecord (h : Heap) : Call → Prop
  | .find _ => True
  | .addServiceLabels r _ _ => r < h.length
  | .addAppLabels r _ _ => r < h.length

/-- The record with its two role maps exchanged. -/
def swapRoles (r : NamespaceRecord) : NamespaceRecord :=
  { r with AppLabels := r.ServiceLabels, ServiceLabels := r.AppLabels }

/-! ## Reference definition of the canonical identity -/

/-- A pair is kept when its key and its value are both non-empty. -/
def keptPair (p : String × String) : Prop := p.1 ≠ "" ∧ p.2 ≠ ""

instance (p : String × String) : Decidable (keptPair p) := by
  unfold keptPair; infer_instance

/-- The rendering `key=value` of a pair. -/
def renderPair (p : String × String) : String := p.1 ++ "=" ++ p.2

/-- The canonical identity as the specification words it: drop the pairs with an empty key
or an empty value, order the rest by key, render each as `key=value`, join with `,`. -/
def canonicalIdentity (m : GoMap) : String :=
  ",".intercalate
    ((@List.insertionSort (String × String) (fun p q => p.1 ≤ q.1)
        (fun p q => strLeDec p.1 q.1) (m.filter (fun p => decide (keptPair p)))).map renderPair)

/-! ## Reference definition of the collision reports -/

/-- The service `u` has the namespace and the identity of the service `t`. -/
def sameSelector (t u : Service) : Bool :=
  decide (u.Namespace = t.Namespace ∧ identityOf u.Selector = identityOf t.Selector)

/-- The line reported for the service `t` when `existing` owns its identity. -/
def reportLine (t : Service) (existing : String) : String :=
  t.Namespace ++ ": service " ++ t.Name ++ ": "
    ++ ("service already existed: " ++ identityOf t.Selector ++ " -> " ++ existing)

/-- The reports for the services of a list that comes after the services `pre`, as the
specification words them: a service gets a report, and one only, when a service before it
has its namespace and its identity, and the report names the earliest such service. -/
def reportsAfter (pre : List Service) : List Service → List String
  | [] => []
  | t :: ts =>
    (match pre.find? (sameSelector t) with
      | some u => [reportLine t u.Name]
      | none => []) ++ reportsAfter (pre ++ [t]) ts

/-- The namespace and the identity of a service. -/
def selectorKey (t : Service) : String × String := (t.Namespace, identityOf t.Selector)

/-! ## Auxiliary definitions for the proofs -/

/-- The name of the earliest service of `pre` with the namespace `ns` and the identity `l`,
or `""` when there is none. -/
def ownerOf (pre : List Service) (ns l : String) : String :=
  match pre.find? (fun u => decide (u.Namespace = ns ∧ identityOf u.Selector = l)) with
  | some u => u.Name
  | none => ""


/-- The kept keys of `m` in increasing order, each with its value `m[k]`: the pairs that the
second loop of `map2str` writes, in the order it writes them. -/
def canonPairs (m : GoMap) : List (String × String) :=
  (sortStrings (collectKeys m)).map (fun k => (k, mapIndex m k))

/-- The characters written for the pairs that follow the first one: each pair is preceded
by a comma. -/
def tailChars : List (String × String) → List Char
  | [] => []
  | p :: ps => ',' :: (p.1.data ++ '=' :: (p.2.data ++ tailChars ps))

/-- The characters written for a list of pairs. -/
def joinChars : List (String × String) → List Char
  | [] => []
  | p :: ps => p.1.data ++ '=' :: (p.2.data ++ tailChars ps)

/-- The builder step of `map2str` on a pair. -/
def putPair (sb : String) (p : String × String) : String :=
  (((if sb.length > 0 then sb.push ',' else sb) ++ p.1).push '=') ++ p.2

/-- The record that `Find` hands out for a namespace: the stored one, or a new one with two
empty maps. -/
def currentRecord (s : NamespaceRecordStore) (h : Heap) (ns : String) : NamespaceRecord :=
  (recordOf s h ns).getD { Namespace := ns, ServiceLabels := [], AppLabels := [] }

/-- Every key of the two maps of `r` is a key of the same map of `r₂`. -/
def RecordLe (r r₂ : NamespaceRecord) : Prop :=
  (∀ k ∈ r.ServiceLabels.map Prod.fst, k ∈ r₂.ServiceLabels.map Prod.fst) ∧
    (∀ k ∈ r.AppLabels.map Prod.fst, k ∈ r₂.AppLabels.map Prod.fst)

/-- The second state keeps every namespace with its pointer and every record of the memory
with all its keys. -/
def StateLe (s : NamespaceRecordStore) (h : Heap) (s₂ : NamespaceRecordStore) (h₂ : Heap) :
    Prop :=
  (∀ n p, s.data.lookup n = some p → s₂.data.lookup n = some p) ∧
    (∀ (p : Nat) (r : NamespaceRecord), h[p]? = some r →
      ∃ r₂, h₂[p]? = some r₂ ∧ RecordLe r r₂)

/-- The key holds no `=` and the value holds no `,`. -/
def separatorFree (p : String × String) : Prop := '=' ∉ p.1.data ∧ ',' ∉ p.2.data

instance (p : String × String) : Decidable (separatorFree p) := by
  unfold separatorFree; infer_instance

/-! ## Lemmas on Go maps -/

theorem lookup_of_mem {β : Type} {m : List (String × β)} (nd : NodupKeys m) {k : String}
    {v : β} (h : (k, v) ∈ m) : m.lookup k = some v := by
  induction m with
  | nil => simp at h
  | cons p m ih =>
    obtain ⟨k', v'⟩ := p
    simp only [NodupKeys, List.map_cons, List.nodup_cons] at nd
    rcases List.mem_cons.1 h with h1 | h2
    · cases h1
      simp [List.lookup]
    · have hne : k ≠ k' := by
        rintro rfl
        exact nd.1 (List.mem_map_of_mem Prod.fst h2)
      have hb : (k == k') = false := by simpa using hne
      simp only [List.lookup, hb]
      exact ih nd.2 h2

theorem mem_of_lookup {β : Type} {m : List (String × β)} {k : String} {v : β}
    (h : m.lookup k = some v) : (k, v) ∈ m := by
  induction m with
  | nil => simp at h
  | cons p m ih =>
    obtain ⟨k', v'⟩ := p
    by_cases hk : k = k'
    · subst hk
      simp [List.lookup] at h
      simp [h]
    · have hb : (k == k') = false := by simpa using hk
      simp only [List.lookup, hb] at h
      exact List.mem_cons_of_mem _ (ih h)

theorem lookup_eq_none_iff {β : Type} {m : List (String × β)} {k : String} :
    m.lookup k = none ↔ k ∉ m.map Prod.fst := by
  induction m with
  | nil => simp
  | cons p m ih =>
    obtain ⟨k', v'⟩ := p
    by_cases hk : k = k'
    · subst hk
      simp [List.lookup]
    · have hb : (k == k') = false := by simpa using hk
      simp only [List.lookup, hb, ih, List.map_cons, List.mem_cons, hk, false_or]

theorem mapIndex_of_mem {m : GoMap} (nd : NodupKeys m) {k v : String} (h : (k, v) ∈ m) :
    mapIndex m k = v := by
  simp [mapIndex, lookup_of_mem nd h]

theorem mapIndex_of_not_mem {m : GoMap} {k : String} (h : k ∉ m.map Prod.fst) :
    mapIndex m k = "" := by
  simp [mapIndex, lookup_eq_none_iff.2 h]

theorem lookup_mapAssign_self {β : Type} (m : List (String × β)) (k : String) (v : β) :
    (mapAssign m k v).lookup k = some v := by
  induction m with
  | nil => simp [mapAssign, List.lookup]
  | cons p m ih =>
    obtain ⟨k', v'⟩ := p
    by_cases hk : k' = k
    · simp [mapAssign, hk, List.lookup]
    · have hb : (k == k') = false := by simpa using fun h : k = k' => hk h.symm
      simp only [mapAssign, hk, if_false, List.lookup, hb, ih]

theorem lookup_mapAssign_of_ne {β : Type} (m : List (String × β)) {k k₂ : String} (v : β)
    (hne : k₂ ≠ k) : (mapAssign m k v).lookup k₂ = m.lookup k₂ := by
  induction m with
  | nil =>
    have hb : (k₂ == k) = false := by simpa using hne
    simp [mapAssign, List.lookup, hb]
  | cons p m ih =>
    obtain ⟨k', v'⟩ := p
    by_cases hk : k' = k
    · subst hk
      have hb : (k₂ == k') = false := by simpa using hne
      simp [mapAssign, List.lookup, hb]
    · simp only [mapAssign, hk, if_false, List.lookup, ih]

theorem mapIndex_mapAssign_self (m : GoMap) (k v : String) :
    mapIndex (mapAssign m k v) k = v := by
  simp [mapIndex, lookup_mapAssign_self]

theorem mapIndex_mapAssign_of_ne (m : GoMap) {k k₂ : String} (v : String) (hne : k₂ ≠ k) :
    mapIndex (mapAssign m k v) k₂ = mapIndex m k₂ := by
  simp [mapIndex, lookup_mapAssign_of_ne m v hne]

/-! ## Lemmas on `map2str` -/

theorem collect_foldl (m : GoMap) (l acc : List String) :
    l.foldl
      (fun keys k => if k = "" then keys else if mapIndex m k = "" then keys else keys ++ [k])
      acc
      = acc ++ l.filter (fun k => decide (k ≠ "" ∧ mapIndex m k ≠ "")) := by
  induction l generalizing acc with
  | nil => simp
  | cons k l ih =>
    simp only [List.foldl_cons, ih]
    by_cases h1 : k = ""
    · simp [h1]
    · by_cases h2 : mapIndex m k = ""
      · simp [h1, h2]
      · simp [h1, h2, List.filter_cons]

theorem collectKeys_eq_filter (m : GoMap) :
    collectKeys m
      = (m.map Prod.fst).filter (fun k => decide (k ≠ "" ∧ mapIndex m k ≠ "")) := by
  simp [collectKeys, collect_foldl]

theorem nodup_collectKeys {m : GoMap} (nd : NodupKeys m) : (collectKeys m).Nodup := by
  rw [collectKeys_eq_filter]
  exact List.Nodup.filter _ nd

theorem mem_collectKeys {m : GoMap} (nd : NodupKeys m) {k : String} :
    k ∈ collectKeys m ↔ ∃ v, (k, v) ∈ m ∧ keptPair (k, v) := by
  rw [collectKeys_eq_filter]
  simp only [List.mem_filter, List.mem_map, decide_eq_true_eq, keptPair]
  constructor
  · rintro ⟨⟨⟨k', v⟩, hp, rfl⟩, h1, h2⟩
    refine ⟨v, hp, h1, ?_⟩
    rw [mapIndex_of_mem nd hp] at h2
    exact h2
  · rintro ⟨v, hp, h1, h2⟩
    refine ⟨⟨(k, v), hp, rfl⟩, h1, ?_⟩
    rw [mapIndex_of_mem nd hp]
    exact h2

theorem collectKeys_eq_map_filter {m : GoMap} (nd : NodupKeys m) :
    collectKeys m = (m.filter (fun p => decide (keptPair p))).map Prod.fst := by
  rw [collectKeys_eq_filter, List.filter_map]
  congr 1
  apply List.filter_congr
  intro p hp
  obtain ⟨k, v⟩ := p
  simp [keptPair, mapIndex_of_mem nd hp]

theorem sortStrings_perm (l : List String) : (sortStrings l).Perm l :=
  @List.perm_insertionSort _ _ strLeDec l

theorem sortStrings_sorted (l : List String) : (sortStrings l).Sorted (fun a b => a ≤ b) :=
  @List.sorted_insertionSort _ _ strLeDec _ _ l

theorem sortStrings_eq_of_perm {l₁ l₂ : List String} (h : l₁.Perm l₂) :
    sortStrings l₁ = sortStrings l₂ :=
  List.eq_of_perm_of_sorted
    (((sortStrings_perm l₁).trans h).trans (sortStrings_perm l₂).symm)
    (sortStrings_sorted l₁) (sortStrings_sorted l₂)

theorem mem_canonPairs {m : GoMap} (nd : NodupKeys m) {p : String × String} :
    p ∈ canonPairs m ↔ p ∈ m ∧ keptPair p := by
  obtain ⟨k, v⟩ := p
  simp only [canonPairs, List.mem_map, Prod.mk.injEq]
  constructor
  · rintro ⟨k', hk', rfl, rfl⟩
    obtain ⟨v, hv, hkept⟩ := (mem_collectKeys nd).1 ((sortStrings_perm _).mem_iff.1 hk')
    rw [mapIndex_of_mem nd hv]
    exact ⟨hv, hkept⟩
  · rintro ⟨hp, hkept⟩
    exact ⟨k, (sortStrings_perm _).mem_iff.2 ((mem_collectKeys nd).2 ⟨v, hp, hkept⟩), rfl,
      mapIndex_of_mem nd hp⟩

theorem canonPairs_congr {m₁ m₂ : GoMap} (nd₁ : NodupKeys m₁) (nd₂ : NodupKeys m₂)
    (h : ∀ p, (p ∈ m₁ ∧ keptPair p) ↔ (p ∈ m₂ ∧ keptPair p)) :
    canonPairs m₁ = canonPairs m₂ := by
  have hkeys : ∀ k, k ∈ collectKeys m₁ ↔ k ∈ collectKeys m₂ := by
    intro k
    rw [mem_collectKeys nd₁, mem_collectKeys nd₂]
    exact exists_congr fun v => h (k, v)
  have hperm : (collectKeys m₁).Perm (collectKeys m₂) :=
    (List.perm_ext_iff_of_nodup (nodup_collectKeys nd₁) (nodup_collectKeys nd₂)).2 hkeys
  unfold canonPairs
  rw [sortStrings_eq_of_perm hperm]
  apply List.map_congr_left
  intro k hk
  obtain ⟨v, hv, hkept⟩ := (mem_collectKeys nd₂).1 ((sortStrings_perm _).mem_iff.1 hk)
  rw [mapIndex_of_mem nd₂ hv, mapIndex_of_mem nd₁ ((h (k, v)).2 ⟨hv, hkept⟩).1]

theorem map2str_eq_foldl_putPair (m : GoMap) :
    map2str m = (canonPairs m).foldl putPair "" := by
  simp only [map2str, canonPairs, List.foldl_map]
  rfl

theorem putPair_data_of_ne (sb : String) (p : String × String) (h : sb.data ≠ []) :
    (putPair sb p).data = sb.data ++ ',' :: (p.1.data ++ '=' :: p.2.data) := by
  have hlen : sb.length > 0 := by
    rw [String.length]
    exact List.length_pos.2 h
  simp [putPair, hlen, String.data_push, String.data_append]

theorem putPair_data_empty (p : String × String) :
    (putPair "" p).data = p.1.data ++ '=' :: p.2.data := by
  simp [putPair, String.data_push, String.data_append]

theorem foldl_putPair_data_of_ne (ps : List (String × String)) (sb : String)
    (h : sb.data ≠ []) : (ps.foldl putPair sb).data = sb.data ++ tailChars ps := by
  induction ps generalizing sb with
  | nil => simp [tailChars]
  | cons p ps ih =>
    have h2 : (putPair sb p).data ≠ [] := by
      rw [putPair_data_of_ne sb p h]; simp [h]
    rw [List.foldl_cons, ih _ h2, putPair_data_of_ne sb p h]
    simp [tailChars]

theorem foldl_putPair_data (ps : List (String × String)) :
    (ps.foldl putPair "").data = joinChars ps := by
  cases ps with
  | nil => rfl
  | cons p ps =>
    have h2 : (putPair "" p).data ≠ [] := by
      rw [putPair_data_empty]; simp
    rw [List.foldl_cons, foldl_putPair_data_of_ne _ _ h2, putPair_data_empty]
    simp [joinChars]

theorem map2str_data (m : GoMap) : (map2str m).data = joinChars (canonPairs m) := by
  rw [map2str_eq_foldl_putPair, foldl_putPair_data]

/-! ## The reference definition -/

theorem intercalate_go_data (ps : List (String × String)) (acc : String) :
    (String.intercalate.go acc "," (ps.map renderPair)).data = acc.data ++ tailChars ps := by
  induction ps generalizing acc with
  | nil => simp [String.intercalate.go, tailChars]
  | cons p ps ih =>
    simp only [List.map_cons, String.intercalate.go, ih]
    simp [tailChars, renderPair, String.data_append]

theorem intercalate_data (ps : List (String × String)) :
    (",".intercalate (ps.map renderPair)).data = joinChars ps := by
  cases ps with
  | nil => rfl
  | cons p ps =>
    simp only [List.map_cons, String.intercalate, intercalate_go_data]
    simp [joinChars, renderPair, String.data_append]

theorem sortedKept_eq_canonPairs {m : GoMap} (nd : NodupKeys m) :
    @List.insertionSort (String × String) (fun p q => p.1 ≤ q.1)
        (fun p q => strLeDec p.1 q.1) (m.filter (fun p => decide (keptPair p)))
      = canonPairs m := by
  have hmap :
      (@List.insertionSort (String × String) (fun p q => p.1 ≤ q.1)
          (fun p q => strLeDec p.1 q.1) (m.filter (fun p => decide (keptPair p)))).map Prod.fst
        = sortStrings (collectKeys m) := by
    rw [collectKeys_eq_map_filter nd]
    exact @List.map_insertionSort (String × String) String
      (fun (p q : String × String) => p.1 ≤ q.1) (fun (a b : String) => a ≤ b)
      (fun p q => strLeDec p.1 q.1) strLeDec Prod.fst _ (fun _ _ _ _ => Iff.rfl)
  unfold canonPairs
  rw [← hmap, List.map_map]
  symm
  conv_rhs => rw [← List.map_id (@List.insertionSort (String × String) (fun p q => p.1 ≤ q.1)
        (fun p q => strLeDec p.1 q.1) (m.filter (fun p => decide (keptPair p))))]
  apply List.map_congr_left
  intro p hp
  have hp2 : p ∈ m :=
    (List.mem_filter.1 ((@List.perm_insertionSort _ _ (fun p q => strLeDec p.1 q.1) _).mem_iff.1
      hp)).1
  obtain ⟨k, v⟩ := p
  simp [mapIndex_of_mem nd hp2]

theorem map2str_eq_canonicalIdentity {m : GoMap} (nd : NodupKeys m) :
    map2str m = canonicalIdentity m := by
  apply String.ext
  rw [map2str_data, canonicalIdentity, sortedKept_eq_canonPairs nd, intercalate_data]

/-! ## Reading the pairs back from the identity -/

theorem append_sep_unique (c : Char) :
    ∀ (x y t t' : List Char), c ∉ x → c ∉ y →
      (t = [] ∨ ∃ r, t = c :: r) → (t' = [] ∨ ∃ r, t' = c :: r) →
      x ++ t = y ++ t' → x = y ∧ t = t'
  | [], [], _, _, _, _, _, _, h => ⟨rfl, by simpa using h⟩
  | [], b :: y, t, t', _, hy, ht, _, h => by
    exfalso
    rcases ht with rfl | ⟨r, rfl⟩
    · simp at h
    · simp only [List.nil_append, List.cons_append, List.cons.injEq] at h
      exact hy (by simp [h.1])
  | a :: x, [], t, t', hx, _, _, ht', h => by
    exfalso
    rcases ht' with rfl | ⟨r, rfl⟩
    · simp at h
    · simp only [List.nil_append, List.cons_append, List.cons.injEq] at h
      exact hx (by simp [h.1])
  | a :: x, b :: y, t, t', hx, hy, ht, ht', h => by
    simp only [List.cons_append, List.cons.injEq] at h
    have ih := append_sep_unique c x y t t' (fun hm => hx (List.mem_cons_of_mem _ hm))
      (fun hm => hy (List.mem_cons_of_mem _ hm)) ht ht' h.2
    exact ⟨by rw [h.1, ih.1], ih.2⟩

theorem tailChars_head (ps : List (String × String)) :
    tailChars ps = [] ∨ ∃ r, tailChars ps = ',' :: r := by
  cases ps with
  | nil => exact Or.inl rfl
  | cons p ps => exact Or.inr ⟨_, rfl⟩

theorem pair_chars_inj {p q : String × String} {ps qs : List (String × String)}
    (hp : separatorFree p) (hq : separatorFree q)
    (h : p.1.data ++ '=' :: (p.2.data ++ tailChars ps)
      = q.1.data ++ '=' :: (q.2.data ++ tailChars qs)) :
    p = q ∧ tailChars ps = tailChars qs := by
  obtain ⟨h1, h2⟩ := append_sep_unique '=' _ _ _ _ hp.1 hq.1 (Or.inr ⟨_, rfl⟩)
    (Or.inr ⟨_, rfl⟩) h
  simp only [List.cons.injEq, true_and] at h2
  obtain ⟨h3, h4⟩ := append_sep_unique ',' _ _ _ _ hp.2 hq.2 (tailChars_head ps)
    (tailChars_head qs) h2
  exact ⟨Prod.ext (String.ext h1) (String.ext h3), h4⟩

theorem tailChars_inj :
    ∀ (ps qs : List (String × String)), (∀ p ∈ ps, separatorFree p) →
      (∀ q ∈ qs, separatorFree q) → tailChars ps = tailChars qs → ps = qs
  | [], [], _, _, _ => rfl
  | [], q :: qs, _, _, h => by simp [tailChars] at h
  | p :: ps, [], _, _, h => by simp [tailChars] at h
  | p :: ps, q :: qs, hps, hqs, h => by
    simp only [tailChars, List.cons.injEq, true_and] at h
    obtain ⟨h1, h2⟩ := pair_chars_inj (hps p (List.mem_cons_self _ _))
      (hqs q (List.mem_cons_self _ _)) h
    rw [h1, tailChars_inj ps qs (fun x hx => hps x (List.mem_cons_of_mem _ hx))
      (fun x hx => hqs x (List.mem_cons_of_mem _ hx)) h2]

theorem joinChars_inj {ps qs : List (String × String)} (hps : ∀ p ∈ ps, separatorFree p)
    (hqs : ∀ q ∈ qs, separatorFree q) (h : joinChars ps = joinChars qs) : ps = qs := by
  cases ps with
  | nil =>
    cases qs with
    | nil => rfl
    | cons q qs => simp [joinChars] at h
  | cons p ps =>
    cases qs with
    | nil => simp [joinChars] at h
    | cons q qs =>
      simp only [joinChars] at h
      obtain ⟨h1, h2⟩ := pair_chars_inj (hps p (List.mem_cons_self _ _))
        (hqs q (List.mem_cons_self _ _)) h
      rw [h1, tailChars_inj ps qs (fun x hx => hps x (List.mem_cons_of_mem _ hx))
        (fun x hx => hqs x (List.mem_cons_of_mem _ hx)) h2]

theorem canonPairs_separatorFree {m : GoMap} (nd : NodupKeys m)
    (h : ∀ p ∈ m, keptPair p → separatorFree p) : ∀ p ∈ canonPairs m, separatorFree p :=
  fun p hp => h p ((mem_canonPairs nd).1 hp).1 ((mem_canonPairs nd).1 hp).2

/-! ## Claims on `map2str` -/

/-- C1: `map2str` does not depend on the order of the pairs: a label mapping, given as a list
of pairs with pairwise distinct keys, and any permutation of it have the same identity. -/
theorem map2str_perm (m m' : GoMap) (nd : NodupKeys m) (hperm : m.Perm m') :
    map2str m = map2str m' := by
  have nd' : NodupKeys m' := (List.Perm.nodup_iff (hperm.map Prod.fst)).1 nd
  apply String.ext
  rw [map2str_data, map2str_data,
    canonPairs_congr nd nd' (fun p => and_congr_left fun _ => hperm.mem_iff)]

/-- Witness of C1 on the mapping `b=1, a=2` listed in its two orders. -/
theorem map2str_perm_witness :
    map2str [("b", "1"), ("a", "2")] = map2str [("a", "2"), ("b", "1")] :=
  map2str_perm _ _ (by decide) (List.Perm.swap _ _ _)

/-- C2: on every label mapping `map2str` is the reference definition (drop the pairs with an
empty key or an empty value, order by key, render `key=value`, join with `,`), and the
mapping `a -> "", "" -> b, x -> y` has the identity `x=y`. -/
theorem map2str_refines_canonicalIdentity :
    (∀ m : GoMap, NodupKeys m → map2str m = canonicalIdentity m) ∧
      map2str [("a", ""), ("", "b"), ("x", "y")] = "x=y" :=
  ⟨fun _ nd => map2str_eq_canonicalIdentity nd, by decide⟩

/-- Witness of C2 on a mapping with three kept pairs and two dropped ones. -/
theorem map2str_refines_canonicalIdentity_witness :
    map2str [("b", "1"), ("", "z"), ("c", "3"), ("a", "2"), ("d", "")]
        = canonicalIdentity [("b", "1"), ("", "z"), ("c", "3"), ("a", "2"), ("d", "")] ∧
      canonicalIdentity [("b", "1"), ("", "z"), ("c", "3"), ("a", "2"), ("d", "")]
        = "a=2,b=1,c=3" :=
  ⟨map2str_refines_canonicalIdentity.1 _ (by decide), by decide⟩

/-- C3, as stated, fails: the mappings `a -> "b,c=d"` and `a -> b, c -> d` have the same
identity `a=b,c=d`, and the pair `a -> b` is kept in the second only. -/
theorem map2str_not_injective :
    NodupKeys [("a", "b,c=d")] ∧ NodupKeys [("a", "b"), ("c", "d")] ∧
      map2str [("a", "b,c=d")] = map2str [("a", "b"), ("c", "d")] ∧
      ¬ (∀ p : String × String,
          (p ∈ [("a", "b,c=d")] ∧ keptPair p) ↔ (p ∈ [("a", "b"), ("c", "d")] ∧ keptPair p)) := by
  refine ⟨by decide, by decide, by decide, fun h => ?_⟩
  have h1 := (h ("a", "b")).2 ⟨by decide, by decide⟩
  exact absurd h1.1 (by decide)

/-- C3, amended: when in both mappings no kept key holds `=` and no kept value holds `,`,
the identities are equal exactly when the mappings have the same kept pairs. -/
theorem map2str_eq_iff (m₁ m₂ : GoMap) (nd₁ : NodupKeys m₁) (nd₂ : NodupKeys m₂)
    (h₁ : ∀ p ∈ m₁, keptPair p → separatorFree p)
    (h₂ : ∀ p ∈ m₂, keptPair p → separatorFree p) :
    map2str m₁ = map2str m₂ ↔ ∀ p, (p ∈ m₁ ∧ keptPair p) ↔ (p ∈ m₂ ∧ keptPair p) := by
  constructor
  · intro h p
    have hd : joinChars (canonPairs m₁) = joinChars (canonPairs m₂) := by
      rw [← map2str_data, ← map2str_data, h]
    have hc := joinChars_inj (canonPairs_separatorFree nd₁ h₁)
      (canonPairs_separatorFree nd₂ h₂) hd
    rw [← mem_canonPairs nd₁, ← mem_canonPairs nd₂, hc]
  · intro h
    apply String.ext
    rw [map2str_data, map2str_data, canonPairs_congr nd₁ nd₂ h]

/-- Witness of C3 amended: two listings of one mapping whose value holds `=` and whose key
holds `,`, with a dropped pair in one of them. -/
theorem map2str_eq_iff_witness :
    map2str [("k,1", "v=1"), ("a", "b")] = map2str [("a", "b"), ("z", ""), ("k,1", "v=1")] ↔
      ∀ p, (p ∈ [("k,1", "v=1"), ("a", "b")] ∧ keptPair p) ↔
        (p ∈ [("a", "b"), ("z", ""), ("k,1", "v=1")] ∧ keptPair p) :=
  map2str_eq_iff _ _ (by decide) (by decide) (by decide) (by decide)

/-! ## Lemmas on the two register methods -/

theorem addServiceLabels_of_collision (r : NamespaceRecord) (m : GoMap) (v : String)
    (hm : m ≠ []) (hc : mapIndex r.ServiceLabels (map2str m) ≠ "") :
    r.AddServiceLabels (some m) v
      = (r, some ("service already existed: " ++ map2str m ++ " -> "
          ++ mapIndex r.ServiceLabels (map2str m))) := by
  have hlen : m.length ≠ 0 := fun h => hm (List.length_eq_zero.1 h)
  simp [NamespaceRecord.AddServiceLabels, hlen, hc]

theorem addServiceLabels_of_free (r : NamespaceRecord) (m : GoMap) (v : String)
    (hm : m ≠ []) (hc : mapIndex r.ServiceLabels (map2str m) = "") :
    r.AddServiceLabels (some m) v
      = ({ r with ServiceLabels := mapAssign r.ServiceLabels (map2str m) v }, none) := by
  have hlen : m.length ≠ 0 := fun h => hm (List.length_eq_zero.1 h)
  simp [NamespaceRecord.AddServiceLabels, hlen, hc]

theorem addAppLabels_of_collision (r : NamespaceRecord) (m : GoMap) (v : String)
    (hm : m ≠ []) (hc : mapIndex r.AppLabels (map2str m) ≠ "") :
    r.AddAppLabels (some m) v
      = (r, some ("app already existed: " ++ map2str m ++ " -> "
          ++ mapIndex r.AppLabels (map2str m))) := by
  have hlen : m.length ≠ 0 := fun h => hm (List.length_eq_zero.1 h)
  simp [NamespaceRecord.AddAppLabels, hlen, hc]

theorem addAppLabels_of_free (r : NamespaceRecord) (m : GoMap) (v : String)
    (hm : m ≠ []) (hc : mapIndex r.AppLabels (map2str m) = "") :
    r.AddAppLabels (some m) v
      = ({ r with AppLabels := mapAssign r.AppLabels (map2str m) v }, none) := by
  have hlen : m.length ≠ 0 := fun h => hm (List.length_eq_zero.1 h)
  simp [NamespaceRecord.AddAppLabels, hlen, hc]

theorem addServiceLabels_cases (r : NamespaceRecord) (labels : Option GoMap) (v : String) :
    (r.AddServiceLabels labels v = (r, none)) ∨
      (∃ msg, r.AddServiceLabels labels v = (r, some msg)) ∨
      (∃ l, r.AddServiceLabels labels v
        = ({ r with ServiceLabels := mapAssign r.ServiceLabels l v }, none)) := by
  cases labels with
  | none => exact Or.inl rfl
  | some m =>
    by_cases hm : m = []
    · subst hm
      exact Or.inl rfl
    · by_cases hc : mapIndex r.ServiceLabels (map2str m) = ""
      · exact Or.inr (Or.inr ⟨_, addServiceLabels_of_free r m v hm hc⟩)
      · exact Or.inr (Or.inl ⟨_, addServiceLabels_of_collision r m v hm hc⟩)

theorem addAppLabels_cases (r : NamespaceRecord) (labels : Option GoMap) (v : String) :
    (r.AddAppLabels labels v = (r, none)) ∨
      (∃ msg, r.AddAppLabels labels v = (r, some msg)) ∨
      (∃ l, r.AddAppLabels labels v
        = ({ r with AppLabels := mapAssign r.AppLabels l v }, none)) := by
  cases labels with
  | none => exact Or.inl rfl
  | some m =>
    by_cases hm : m = []
    · subst hm
      exact Or.inl rfl
    · by_cases hc : mapIndex r.AppLabels (map2str m) = ""
      · exact Or.inr (Or.inr ⟨_, addAppLabels_of_free r m v hm hc⟩)
      · exact Or.inr (Or.inl ⟨_, addAppLabels_of_collision r m v hm hc⟩)

theorem addServiceLabels_of_empty (r : NamespaceRecord) (labels : Option GoMap) (v : String)
    (hr : r.ServiceLabels = []) : (r.AddServiceLabels labels v).2 = none := by
  cases labels with
  | none => rfl
  | some m =>
    by_cases hm : m = []
    · subst hm; rfl
    · rw [addServiceLabels_of_free r m v hm (by rw [hr]; rfl)]

theorem addAppLabels_of_empty (r : NamespaceRecord) (labels : Option GoMap) (v : String)
    (hr : r.AppLabels = []) : (r.AddAppLabels labels v).2 = none := by
  cases labels with
  | none => rfl
  | some m =>
    by_cases hm : m = []
    · subst hm; rfl
    · rw [addAppLabels_of_free r m v hm (by rw [hr]; rfl)]

theorem ne_nil_of_map2str_ne {m : GoMap} (h : map2str m ≠ "") : m ≠ [] := by
  rintro rfl
  exact h rfl

/-! ## Claims on the two register methods -/

/-- C4 fails on a fully filtered mapping: on a record with two empty maps, registering the
mapping `a -> ""` for the owner `svc1` stores `svc1` under the key `""`, and registering the
mapping `b -> ""` for `svc2` afterwards returns an error; `AddAppLabels` does the same. -/
theorem fully_filtered_is_registered :
    (NamespaceRecord.AddServiceLabels ⟨"ns", [], []⟩ (some [("a", "")]) "svc1"
        = (⟨"ns", [], [("", "svc1")]⟩, none)) ∧
      (NamespaceRecord.AddServiceLabels ⟨"ns", [], [("", "svc1")]⟩ (some [("b", "")]) "svc2"
        = (⟨"ns", [], [("", "svc1")]⟩, some "service already existed:  -> svc1")) ∧
      (NamespaceRecord.AddAppLabels ⟨"ns", [], []⟩ (some [("a", "")]) "deployment/d1"
        = (⟨"ns", [("", "deployment/d1")], []⟩, none)) ∧
      (NamespaceRecord.AddAppLabels ⟨"ns", [("", "deployment/d1")], []⟩ (some [("b", "")])
          "deployment/d2"
        = (⟨"ns", [("", "deployment/d1")], []⟩, some "app already existed:  -> deployment/d1")) := by
  decide

/-- C5, as stated, fails for an empty first owner label: after registering `app -> x` for
the owner `""`, registering it again for `svc2` returns no error and the identity `app=x`
is then owned by `svc2`. -/
theorem empty_owner_is_overwritten :
    (NamespaceRecord.AddServiceLabels ⟨"ns", [], []⟩ (some [("app", "x")]) ""
        = (⟨"ns", [], [("app=x", "")]⟩, none)) ∧
      (NamespaceRecord.AddServiceLabels ⟨"ns", [], [("app=x", "")]⟩ (some [("app", "x")]) "svc2"
        = (⟨"ns", [], [("app=x", "svc2")]⟩, none)) := by
  decide

/-- C5, amended: for a non-empty first owner label `o₁`, two mappings with the same
non-empty identity that is not yet a key of the role's map, and any second owner label
`o₂`: the first registration returns no error, the second returns the error that names the
identity and the owner `o₁`, and the role's map holds `o₁` for the identity after both. -/
theorem first_writer_wins (r : NamespaceRecord) (m₁ m₂ : GoMap) (o₁ o₂ : String)
    (hid : map2str m₁ = map2str m₂) (hne : map2str m₁ ≠ "") (ho : o₁ ≠ "") :
    (map2str m₁ ∉ r.ServiceLabels.map Prod.fst →
      (r.AddServiceLabels (some m₁) o₁).2 = none ∧
      ((r.AddServiceLabels (some m₁) o₁).1.AddServiceLabels (some m₂) o₂).2
        = some ("service already existed: " ++ map2str m₁ ++ " -> " ++ o₁) ∧
      ((r.AddServiceLabels (some m₁) o₁).1.AddServiceLabels (some m₂) o₂).1.ServiceLabels.lookup
        (map2str m₁) = some o₁) ∧
    (map2str m₁ ∉ r.AppLabels.map Prod.fst →
      (r.AddAppLabels (some m₁) o₁).2 = none ∧
      ((r.AddAppLabels (some m₁) o₁).1.AddAppLabels (some m₂) o₂).2
        = some ("app already existed: " ++ map2str m₁ ++ " -> " ++ o₁) ∧
      ((r.AddAppLabels (some m₁) o₁).1.AddAppLabels (some m₂) o₂).1.AppLabels.lookup
        (map2str m₁) = some o₁) := by
  have hm₁ : m₁ ≠ [] := ne_nil_of_map2str_ne hne
  have hm₂ : m₂ ≠ [] := ne_nil_of_map2str_ne (hid ▸ hne)
  constructor
  · intro habs
    have h1 := addServiceLabels_of_free r m₁ o₁ hm₁ (mapIndex_of_not_mem habs)
    have hc : mapIndex ({ r with ServiceLabels := mapAssign r.ServiceLabels (map2str m₁) o₁ }
        : NamespaceRecord).ServiceLabels (map2str m₂) ≠ "" := by
      rw [← hid]
      simpa [mapIndex_mapAssign_self] using ho
    have h2 := addServiceLabels_of_collision _ m₂ o₂ hm₂ hc
    rw [h1, h2]
    simp [← hid, mapIndex_mapAssign_self, lookup_mapAssign_self]
  · intro habs
    have h1 := addAppLabels_of_free r m₁ o₁ hm₁ (mapIndex_of_not_mem habs)
    have hc : mapIndex ({ r with AppLabels := mapAssign r.AppLabels (map2str m₁) o₁ }
        : NamespaceRecord).AppLabels (map2str m₂) ≠ "" := by
      rw [← hid]
      simpa [mapIndex_mapAssign_self] using ho
    have h2 := addAppLabels_of_collision _ m₂ o₂ hm₂ hc
    rw [h1, h2]
    simp [← hid, mapIndex_mapAssign_self, lookup_mapAssign_self]

/-- Witness of C5 amended: the selector `app=x, tier=db` listed in two orders, first for
`svc1` then for `svc2`, on a record that holds another identity. -/
theorem first_writer_wins_witness :
    ((NamespaceRecord.AddServiceLabels ⟨"ns", [], [("app=y", "svc0")]⟩
        (some [("tier", "db"), ("app", "x")]) "svc1").1.AddServiceLabels
        (some [("app", "x"), ("tier", "db")]) "svc2").2
      = some ("service already existed: " ++ map2str [("tier", "db"), ("app", "x")]
          ++ " -> " ++ "svc1") :=
  ((first_writer_wins ⟨"ns", [], [("app=y", "svc0")]⟩ [("tier", "db"), ("app", "x")]
    [("app", "x"), ("tier", "db")] "svc1" "svc2" (by decide) (by decide) (by decide)).1
    (by decide)).2.1

/-- C6: whenever `AddServiceLabels` or `AddAppLabels` returns an error, the record after the
call is the record before it, so `ServiceLabels`, `AppLabels` and `Namespace` are unchanged. -/
theorem error_leaves_record_unchanged (r : NamespaceRecord) (labels : Option GoMap)
    (v : String) :
    ((r.AddServiceLabels labels v).2 ≠ none → (r.AddServiceLabels labels v).1 = r) ∧
      ((r.AddAppLabels labels v).2 ≠ none → (r.AddAppLabels labels v).1 = r) := by
  constructor
  · intro herr
    rcases addServiceLabels_cases r labels v with h | ⟨msg, h⟩ | ⟨l, h⟩
    · rw [h]
    · rw [h]
    · rw [h] at herr
      exact absurd rfl herr
  · intro herr
    rcases addAppLabels_cases r labels v with h | ⟨msg, h⟩ | ⟨l, h⟩
    · rw [h]
    · rw [h]
    · rw [h] at herr
      exact absurd rfl herr

/-- Witness of C6: a second service with the selector `app=x` in a record where `svc1` owns
it. -/
theorem error_leaves_record_unchanged_witness :
    (NamespaceRecord.AddServiceLabels ⟨"ns", [("app=x", "deployment/d")], [("app=x", "svc1")]⟩
        (some [("app", "x")]) "svc2").1
      = ⟨"ns", [("app=x", "deployment/d")], [("app=x", "svc1")]⟩ :=
  (error_leaves_record_unchanged ⟨"ns", [("app=x", "deployment/d")], [("app=x", "svc1")]⟩
    (some [("app", "x")]) "svc2").1 (by decide)

/-- C7: for a mapping with at least one pair whose identity is not a key of the role's map,
the register method returns no error, the role's map afterwards holds the owner label under
the identity and holds under every other key what it held before. -/
theorem register_free_identity (r : NamespaceRecord) (m : GoMap) (v : String) (hm : m ≠ []) :
    (map2str m ∉ r.ServiceLabels.map Prod.fst →
      (r.AddServiceLabels (some m) v).2 = none ∧
      (r.AddServiceLabels (some m) v).1.ServiceLabels.lookup (map2str m) = some v ∧
      ∀ k, k ≠ map2str m →
        (r.AddServiceLabels (some m) v).1.ServiceLabels.lookup k = r.ServiceLabels.lookup k) ∧
    (map2str m ∉ r.AppLabels.map Prod.fst →
      (r.AddAppLabels (some m) v).2 = none ∧
      (r.AddAppLabels (some m) v).1.AppLabels.lookup (map2str m) = some v ∧
      ∀ k, k ≠ map2str m →
        (r.AddAppLabels (some m) v).1.AppLabels.lookup k = r.AppLabels.lookup k) := by
  constructor
  · intro habs
    rw [addServiceLabels_of_free r m v hm (mapIndex_of_not_mem habs)]
    exact ⟨rfl, lookup_mapAssign_self _ _ _, fun k hk => lookup_mapAssign_of_ne _ _ hk⟩
  · intro habs
    rw [addAppLabels_of_free r m v hm (mapIndex_of_not_mem habs)]
    exact ⟨rfl, lookup_mapAssign_self _ _ _, fun k hk => lookup_mapAssign_of_ne _ _ hk⟩

/-- Witness of C7: the selector `app=x` registered for `svc2` in a record where `svc1` owns
`app=y`. -/
theorem register_free_identity_witness :
    (NamespaceRecord.AddServiceLabels ⟨"ns", [], [("app=y", "svc1")]⟩
        (some [("app", "x")]) "svc2").2 = none ∧
      (NamespaceRecord.AddServiceLabels ⟨"ns", [], [("app=y", "svc1")]⟩
        (some [("app", "x")]) "svc2").1.ServiceLabels.lookup (map2str [("app", "x")])
        = some "svc2" :=
  ⟨((register_free_identity ⟨"ns", [], [("app=y", "svc1")]⟩ [("app", "x")] "svc2"
      (by decide)).1 (by decide)).1,
    ((register_free_identity ⟨"ns", [], [("app=y", "svc1")]⟩ [("app", "x")] "svc2"
      (by decide)).1 (by decide)).2.1⟩

/-- C8: `AddServiceLabels` never changes `AppLabels`, `AddAppLabels` never changes
`ServiceLabels`, and on a freshly created record registering one mapping once with each
method, in either order, returns no error from either call. -/
theorem roles_are_independent :
    (∀ (r : NamespaceRecord) (labels : Option GoMap) (v : String),
      (r.AddServiceLabels labels v).1.AppLabels = r.AppLabels) ∧
    (∀ (r : NamespaceRecord) (labels : Option GoMap) (v : String),
      (r.AddAppLabels labels v).1.ServiceLabels = r.ServiceLabels) ∧
    (∀ (ns : String) (labels : Option GoMap) (v₁ v₂ : String),
      (NamespaceRecord.AddServiceLabels
          { Namespace := ns, ServiceLabels := [], AppLabels := [] } labels v₁).2 = none ∧
      ((NamespaceRecord.AddServiceLabels
          { Namespace := ns, ServiceLabels := [], AppLabels := [] } labels v₁).1.AddAppLabels
          labels v₂).2 = none ∧
      (NamespaceRecord.AddAppLabels
          { Namespace := ns, ServiceLabels := [], AppLabels := [] } labels v₂).2 = none ∧
      ((NamespaceRecord.AddAppLabels
          { Namespace := ns, ServiceLabels := [], AppLabels := [] } labels v₂).1.AddServiceLabels
          labels v₁).2 = none) := by
  have hS : ∀ (r : NamespaceRecord) (labels : Option GoMap) (v : String),
      (r.AddServiceLabels labels v).1.AppLabels = r.AppLabels := by
    intro r labels v
    rcases addServiceLabels_cases r labels v with h | ⟨msg, h⟩ | ⟨l, h⟩ <;> rw [h]
  have hA : ∀ (r : NamespaceRecord) (labels : Option GoMap) (v : String),
      (r.AddAppLabels labels v).1.ServiceLabels = r.ServiceLabels := by
    intro r labels v
    rcases addAppLabels_cases r labels v with h | ⟨msg, h⟩ | ⟨l, h⟩ <;> rw [h]
  refine ⟨hS, hA, fun ns labels v₁ v₂ =>
    ⟨addServiceLabels_of_empty _ _ _ rfl, addAppLabels_of_empty _ _ _ ?_,
      addAppLabels_of_empty _ _ _ rfl, addServiceLabels_of_empty _ _ _ ?_⟩⟩
  · rw [hS]
  · rw [hA]

/-! ## Lemmas on the store -/

theorem mapAssign_of_not_mem {β : Type} (m : List (String × β)) (k : String) (v : β)
    (h : k ∉ m.map Prod.fst) : mapAssign m k v = m ++ [(k, v)] := by
  induction m with
  | nil => rfl
  | cons p m ih =>
    obtain ⟨k', v'⟩ := p
    simp only [List.map_cons, List.mem_cons, not_or] at h
    have hk : ¬ k' = k := fun e => h.1 e.symm
    simp [mapAssign, hk, ih h.2]

theorem find_of_some {s : NamespaceRecordStore} {n : String} {r : Nat} (h : Heap)
    (hl : s.data.lookup n = some r) : s.Find h n = (s, h, r) := by
  simp [NamespaceRecordStore.Find, hl]

theorem find_of_none {s : NamespaceRecordStore} {n : String} (h : Heap)
    (hl : s.data.lookup n = none) :
    s.Find h n = ({ data := s.data ++ [(n, h.length)] },
      h ++ [{ Namespace := n, ServiceLabels := [], AppLabels := [] }], h.length) := by
  simp [NamespaceRecordStore.Find, hl, mapAssign_of_not_mem _ _ _ (lookup_eq_none_iff.1 hl)]

theorem lookup_append_of_ne {β : Type} (m : List (String × β)) {k k₂ : String} (v : β)
    (hne : k₂ ≠ k) : (m ++ [(k, v)]).lookup k₂ = m.lookup k₂ := by
  induction m with
  | nil =>
    have hb : (k₂ == k) = false := by simpa using hne
    simp [List.lookup, hb]
  | cons p m ih =>
    obtain ⟨k', v'⟩ := p
    by_cases hk : k₂ = k'
    · subst hk
      simp [List.lookup]
    · have hb : (k₂ == k') = false := by simpa using hk
      simp only [List.cons_append, List.lookup, hb]
      exact ih

theorem lookup_append_self {β : Type} (m : List (String × β)) (k : String) (v : β)
    (hl : m.lookup k = none) : (m ++ [(k, v)]).lookup k = some v := by
  rw [← mapAssign_of_not_mem _ _ _ (lookup_eq_none_iff.1 hl)]
  exact lookup_mapAssign_self _ _ _

theorem pointer_lt {s : NamespaceRecordStore} {h : Heap} (wf : WellFormed s h) {n : String}
    {r : Nat} (hl : s.data.lookup n = some r) : r < h.length :=
  wf.1 r (List.mem_map_of_mem Prod.snd (mem_of_lookup hl))

theorem pointer_ne {s : NamespaceRecordStore} {h : Heap} (wf : WellFormed s h)
    {n₁ n₂ : String} {r₁ r₂ : Nat} (h₁ : s.data.lookup n₁ = some r₁)
    (h₂ : s.data.lookup n₂ = some r₂) (hne : n₁ ≠ n₂) : r₁ ≠ r₂ := by
  intro e
  have := List.inj_on_of_nodup_map wf.2 (mem_of_lookup h₁) (mem_of_lookup h₂) e
  exact hne (congrArg Prod.fst this)

theorem wellFormed_find {s : NamespaceRecordStore} {h : Heap} (wf : WellFormed s h)
    (n : String) : WellFormed (s.Find h n).1 (s.Find h n).2.1 := by
  cases hl : s.data.lookup n with
  | some r => rw [find_of_some h hl]; exact wf
  | none =>
    rw [find_of_none h hl]
    constructor
    · intro r hr
      simp only [List.map_append, List.map_cons, List.map_nil, List.mem_append,
        List.mem_singleton] at hr
      simp only [List.length_append, List.length_singleton]
      rcases hr with hr | rfl
      · exact Nat.lt_succ_of_lt (wf.1 r hr)
      · exact Nat.lt_succ_self _
    · simp only [List.map_append, List.map_cons, List.map_nil]
      refine List.Nodup.append wf.2 (List.nodup_singleton _) ?_
      intro r hr hr'
      rw [List.mem_singleton] at hr'
      subst hr'
      exact Nat.lt_irrefl _ (wf.1 _ hr)

theorem wellFormed_set {s : NamespaceRecordStore} {h : Heap} (wf : WellFormed s h) (r : Nat)
    (x : NamespaceRecord) : WellFormed s (h.set r x) := by
  refine ⟨fun q hq => ?_, wf.2⟩
  rw [List.length_set]
  exact wf.1 q hq

theorem find_lookup_self (s : NamespaceRecordStore) (h : Heap) (n : String) :
    (s.Find h n).1.data.lookup n = some (s.Find h n).2.2 := by
  cases hl : s.data.lookup n with
  | some r => rw [find_of_some h hl]; exact hl
  | none => rw [find_of_none h hl]; exact lookup_append_self _ _ _ hl

theorem find_lookup_of_ne (s : NamespaceRecordStore) (h : Heap) {n n₂ : String}
    (hne : n₂ ≠ n) : (s.Find h n).1.data.lookup n₂ = s.data.lookup n₂ := by
  cases hl : s.data.lookup n with
  | some r => rw [find_of_some h hl]
  | none => rw [find_of_none h hl]; exact lookup_append_of_ne _ _ hne

theorem find_lookup_of_some (s : NamespaceRecordStore) (h : Heap) (n : String) {n₂ : String}
    {r : Nat} (hl : s.data.lookup n₂ = some r) : (s.Find h n).1.data.lookup n₂ = some r := by
  by_cases hne : n₂ = n
  · subst hne
    rw [find_of_some h hl]; exact hl
  · rw [find_lookup_of_ne s h hne]; exact hl

theorem find_heap_of_lt (s : NamespaceRecordStore) (h : Heap) (n : String) {q : Nat}
    (hq : q < h.length) : (s.Find h n).2.1[q]? = h[q]? := by
  cases hl : s.data.lookup n with
  | some r => rw [find_of_some h hl]
  | none => rw [find_of_none h hl]; exact List.getElem?_append_left hq

theorem find_pointer_lt {s : NamespaceRecordStore} {h : Heap} (wf : WellFormed s h)
    (n : String) : (s.Find h n).2.2 < (s.Find h n).2.1.length :=
  pointer_lt (wellFormed_find wf n) (find_lookup_self s h n)

theorem find_fresh {s : NamespaceRecordStore} (h : Heap) {n : String}
    (hl : s.data.lookup n = none) :
    (s.Find h n).2.1[(s.Find h n).2.2]?
      = some { Namespace := n, ServiceLabels := [], AppLabels := [] } := by
  rw [find_of_none h hl]
  simp

theorem recordOf_find_of_ne {s : NamespaceRecordStore} {h : Heap} (wf : WellFormed s h)
    {n n₂ : String} (hne : n₂ ≠ n) :
    recordOf (s.Find h n).1 (s.Find h n).2.1 n₂ = recordOf s h n₂ := by
  unfold recordOf
  rw [find_lookup_of_ne s h hne]
  cases hl : s.data.lookup n₂ with
  | none => rfl
  | some q => exact find_heap_of_lt s h n (pointer_lt wf hl)

theorem recordOf_set_of_ne {s : NamespaceRecordStore} {h : Heap} (wf : WellFormed s h)
    {n n₂ : String} {r : Nat} (hl : s.data.lookup n = some r) (hne : n₂ ≠ n)
    (x : NamespaceRecord) : recordOf s (h.set r x) n₂ = recordOf s h n₂ := by
  unfold recordOf
  cases hl₂ : s.data.lookup n₂ with
  | none => rfl
  | some q =>
    have hq : r ≠ q := pointer_ne wf hl hl₂ (fun e => hne e.symm)
    simp [List.getElem?_set, hq]

theorem find_deref {s : NamespaceRecordStore} {h : Heap} (wf : WellFormed s h) (n : String) :
    (s.Find h n).2.1[(s.Find h n).2.2]? = some (currentRecord s h n) := by
  cases hl : s.data.lookup n with
  | some r =>
    rw [find_of_some h hl]
    have hr : r < h.length := pointer_lt wf hl
    simp [currentRecord, recordOf, hl, List.getElem?_eq_getElem hr]
  | none =>
    rw [find_fresh h hl]
    simp [currentRecord, recordOf, hl]

theorem registerService_eq {s : NamespaceRecordStore} {h : Heap} (wf : WellFormed s h)
    (n : String) (labels : Option GoMap) (v : String) :
    registerService s h n labels v
      = some ((s.Find h n).1,
          (s.Find h n).2.1.set (s.Find h n).2.2
            ((currentRecord s h n).AddServiceLabels labels v).1,
          ((currentRecord s h n).AddServiceLabels labels v).2) := by
  simp [registerService, callAddServiceLabels, find_deref wf n]

theorem registerApp_eq {s : NamespaceRecordStore} {h : Heap} (wf : WellFormed s h)
    (n : String) (labels : Option GoMap) (v : String) :
    registerApp s h n labels v
      = some ((s.Find h n).1,
          (s.Find h n).2.1.set (s.Find h n).2.2
            ((currentRecord s h n).AddAppLabels labels v).1,
          ((currentRecord s h n).AddAppLabels labels v).2) := by
  simp [registerApp, callAddAppLabels, find_deref wf n]

theorem recordOf_find_set_of_ne {s : NamespaceRecordStore} {h : Heap} (wf : WellFormed s h)
    {n n₂ : String} (hne : n₂ ≠ n) (x : NamespaceRecord) :
    recordOf (s.Find h n).1 ((s.Find h n).2.1.set (s.Find h n).2.2 x) n₂ = recordOf s h n₂ := by
  rw [recordOf_set_of_ne (wellFormed_find wf n) (find_lookup_self s h n) hne,
    recordOf_find_of_ne wf hne]

theorem recordOf_find_set_self {s : NamespaceRecordStore} {h : Heap} (wf : WellFormed s h)
    (n : String) (x : NamespaceRecord) :
    recordOf (s.Find h n).1 ((s.Find h n).2.1.set (s.Find h n).2.2 x) n = some x := by
  unfold recordOf
  rw [find_lookup_self]
  simp [List.getElem?_set, find_pointer_lt wf n]

theorem wellFormed_find_set {s : NamespaceRecordStore} {h : Heap} (wf : WellFormed s h)
    (n : String) (x : NamespaceRecord) :
    WellFormed (s.Find h n).1 ((s.Find h n).2.1.set (s.Find h n).2.2 x) :=
  wellFormed_set (wellFormed_find wf n) _ _

theorem wellFormed_new (h : Heap) : WellFormed NewNamespaceRecordStore h := by
  constructor
  · intro r hr
    simp [NewNamespaceRecordStore] at hr
  · simp [NewNamespaceRecordStore]

theorem currentRecord_of_none {s : NamespaceRecordStore} {h : Heap} {n : String}
    (hr : recordOf s h n = none) :
    currentRecord s h n = { Namespace := n, ServiceLabels := [], AppLabels := [] } := by
  simp [currentRecord, hr]

theorem recordOf_new (h : Heap) (n : String) : recordOf NewNamespaceRecordStore h n = none :=
  rfl

theorem register_step {s : NamespaceRecordStore} {h : Heap} (wf : WellFormed s h)
    {n : String} {r : Nat} {x : NamespaceRecord} (hl : s.data.lookup n = some r)
    (hx : h[r]? = some x) (c : Registration) :
    ∃ s' h' err, register s h c = some (s', h', err) ∧ WellFormed s' h' ∧
      s'.data.lookup n = some r ∧ h'[r]? = some (applyRegistration n x c) := by
  have hcur : currentRecord s h n = x := by
    simp [currentRecord, recordOf, hl, hx]
  have hr : r < h.length := pointer_lt wf hl
  have key : ∀ (ns : String) (y : NamespaceRecord),
      ((s.Find h ns).2.1.set (s.Find h ns).2.2 y)[r]? = some (if ns = n then y else x) := by
    intro ns y
    by_cases e : ns = n
    · subst e
      rw [find_of_some h hl]
      simp [List.getElem?_set, hr]
    · have hp : (s.Find h ns).2.2 ≠ r :=
        pointer_ne (wellFormed_find wf ns) (find_lookup_self s h ns)
          (find_lookup_of_some s h ns hl) e
      simp only [List.getElem?_set, hp, if_false, e]
      rw [find_heap_of_lt s h ns hr, hx]
  cases c with
  | service ns labels v =>
    refine ⟨_, _, _, registerService_eq wf ns labels v, wellFormed_find_set wf ns _,
      find_lookup_of_some s h ns hl, ?_⟩
    rw [key]
    by_cases e : ns = n
    · subst e
      simp [applyRegistration, hcur]
    · simp [applyRegistration, e]
  | app ns labels v =>
    refine ⟨_, _, _, registerApp_eq wf ns labels v, wellFormed_find_set wf ns _,
      find_lookup_of_some s h ns hl, ?_⟩
    rw [key]
    by_cases e : ns = n
    · subst e
      simp [applyRegistration, hcur]
    · simp [applyRegistration, e]

theorem registerAll_spec (cs : List Registration) :
    ∀ {s : NamespaceRecordStore} {h : Heap}, WellFormed s h →
      ∀ {n : String} {r : Nat} {x : NamespaceRecord}, s.data.lookup n = some r →
        h[r]? = some x →
        ∃ s' h', registerAll s h cs = some (s', h') ∧ WellFormed s' h' ∧
          s'.data.lookup n = some r ∧ h'[r]? = some (cs.foldl (applyRegistration n) x) := by
  induction cs with
  | nil =>
    intro s h wf n r x hl hx
    exact ⟨s, h, rfl, wf, hl, hx⟩
  | cons c cs ih =>
    intro s h wf n r x hl hx
    obtain ⟨s₁, h₁, err, e₁, wf₁, hl₁, hx₁⟩ := register_step wf hl hx c
    obtain ⟨s₂, h₂, e₂, wf₂, hl₂, hx₂⟩ := ih wf₁ hl₁ hx₁
    refine ⟨s₂, h₂, ?_, wf₂, hl₂, hx₂⟩
    simp [registerAll, e₁, e₂]

theorem register_wellFormed {s : NamespaceRecordStore} {h : Heap} (wf : WellFormed s h)
    (c : Registration) :
    ∃ s' h' err, register s h c = some (s', h', err) ∧ WellFormed s' h' := by
  cases c with
  | service ns labels v =>
    exact ⟨_, _, _, registerService_eq wf ns labels v, wellFormed_find_set wf ns _⟩
  | app ns labels v =>
    exact ⟨_, _, _, registerApp_eq wf ns labels v, wellFormed_find_set wf ns _⟩

theorem registerAll_wellFormed (cs : List Registration) :
    ∀ {s : NamespaceRecordStore} {h : Heap}, WellFormed s h →
      ∃ s' h', registerAll s h cs = some (s', h') ∧ WellFormed s' h' := by
  induction cs with
  | nil =>
    intro s h wf
    exact ⟨s, h, rfl, wf⟩
  | cons c cs ih =>
    intro s h wf
    obtain ⟨s₁, h₁, err, e₁, wf₁⟩ := register_wellFormed wf c
    obtain ⟨s₂, h₂, e₂, wf₂⟩ := ih wf₁
    exact ⟨s₂, h₂, by simp [registerAll, e₁, e₂], wf₂⟩

/-! ## Claims on the store -/

/-- C9: on a well-formed store, a registration through `Find(n₁)` returns and leaves the
record of every other namespace `n₂` as it was; and from a new store, registering one
mapping in one role under `n₁` and then under `n₂` returns no error from either call. -/
theorem namespaces_are_isolated :
    (∀ (s : NamespaceRecordStore) (h : Heap), WellFormed s h →
      ∀ (n₁ n₂ : String), n₁ ≠ n₂ → ∀ (labels : Option GoMap) (v : String),
        (∃ s' h' err, registerService s h n₁ labels v = some (s', h', err) ∧
          recordOf s' h' n₂ = recordOf s h n₂) ∧
        (∃ s' h' err, registerApp s h n₁ labels v = some (s', h', err) ∧
          recordOf s' h' n₂ = recordOf s h n₂)) ∧
    (∀ (h : Heap) (n₁ n₂ : String), n₁ ≠ n₂ → ∀ (labels : Option GoMap) (v₁ v₂ : String),
        (∃ s₁ h₁ s₂ h₂,
          registerService NewNamespaceRecordStore h n₁ labels v₁ = some (s₁, h₁, none) ∧
          registerService s₁ h₁ n₂ labels v₂ = some (s₂, h₂, none)) ∧
        (∃ s₁ h₁ s₂ h₂,
          registerApp NewNamespaceRecordStore h n₁ labels v₁ = some (s₁, h₁, none) ∧
          registerApp s₁ h₁ n₂ labels v₂ = some (s₂, h₂, none))) := by
  constructor
  · intro s h wf n₁ n₂ hne labels v
    exact ⟨⟨_, _, _, registerService_eq wf n₁ labels v,
        recordOf_find_set_of_ne wf (Ne.symm hne) _⟩,
      ⟨_, _, _, registerApp_eq wf n₁ labels v, recordOf_find_set_of_ne wf (Ne.symm hne) _⟩⟩
  · intro h n₁ n₂ hne labels v₁ v₂
    have wf := wellFormed_new h
    have hc₁ := currentRecord_of_none (recordOf_new h n₁)
    constructor
    · have e₁ := registerService_eq wf n₁ labels v₁
      rw [addServiceLabels_of_empty (currentRecord _ h n₁) labels v₁ (by rw [hc₁])] at e₁
      have wf₁ := wellFormed_find_set wf n₁
        ((currentRecord NewNamespaceRecordStore h n₁).AddServiceLabels labels v₁).1
      have hc₂ := currentRecord_of_none
        ((recordOf_find_set_of_ne wf (Ne.symm hne)
          ((currentRecord NewNamespaceRecordStore h n₁).AddServiceLabels labels v₁).1).trans
          (recordOf_new h n₂))
      have e₂ := registerService_eq wf₁ n₂ labels v₂
      rw [addServiceLabels_of_empty (currentRecord _ _ n₂) labels v₂ (by rw [hc₂])] at e₂
      exact ⟨_, _, _, _, e₁, e₂⟩
    · have e₁ := registerApp_eq wf n₁ labels v₁
      rw [addAppLabels_of_empty (currentRecord _ h n₁) labels v₁ (by rw [hc₁])] at e₁
      have wf₁ := wellFormed_find_set wf n₁
        ((currentRecord NewNamespaceRecordStore h n₁).AddAppLabels labels v₁).1
      have hc₂ := currentRecord_of_none
        ((recordOf_find_set_of_ne wf (Ne.symm hne)
          ((currentRecord NewNamespaceRecordStore h n₁).AddAppLabels labels v₁).1).trans
          (recordOf_new h n₂))
      have e₂ := registerApp_eq wf₁ n₂ labels v₂
      rw [addAppLabels_of_empty (currentRecord _ _ n₂) labels v₂ (by rw [hc₂])] at e₂
      exact ⟨_, _, _, _, e₁, e₂⟩

/-- Witness of C9: a store holding the namespace `a`, where `svc1` owns `app=x`; a service
with the same selector is registered under `b`. -/
theorem namespaces_are_isolated_witness :
    ∃ s' h' err,
      registerService ⟨[("a", 0)]⟩ [⟨"a", [], [("app=x", "svc1")]⟩] "b"
          (some [("app", "x")]) "svc2" = some (s', h', err) ∧
        recordOf s' h' "a" = recordOf ⟨[("a", 0)]⟩ [⟨"a", [], [("app=x", "svc1")]⟩] "a" :=
  (namespaces_are_isolated.1 ⟨[("a", 0)]⟩ [⟨"a", [], [("app=x", "svc1")]⟩] (by decide)
    "b" "a" (by decide) (some [("app", "x")]) "svc2").1

/-- C10: on a well-formed store, `Find(n)` on a store without `n` returns a pointer to a
record with `Namespace = n` and two empty maps and stores that pointer under `n`; and
after `Find(n)`, whatever registrations follow, `Find(n)` returns the same pointer and
leaves store and memory as they are, and the record it points to is the one first returned
with all the registrations under `n` applied to it in order. -/
theorem find_is_get_or_create (s : NamespaceRecordStore) (h : Heap) (wf : WellFormed s h)
    (n : String) :
    (s.data.lookup n = none →
      (s.Find h n).2.1[(s.Find h n).2.2]?
          = some { Namespace := n, ServiceLabels := [], AppLabels := [] } ∧
        (s.Find h n).1.data.lookup n = some (s.Find h n).2.2) ∧
    (∀ cs : List Registration, ∃ s' h' r₀,
      (s.Find h n).2.1[(s.Find h n).2.2]? = some r₀ ∧
        registerAll (s.Find h n).1 (s.Find h n).2.1 cs = some (s', h') ∧
        s'.Find h' n = (s', h', (s.Find h n).2.2) ∧
        h'[(s.Find h n).2.2]? = some (cs.foldl (applyRegistration n) r₀)) := by
  constructor
  · intro hl
    exact ⟨find_fresh h hl, find_lookup_self s h n⟩
  · intro cs
    obtain ⟨s', h', e, _, hl', hx'⟩ :=
      registerAll_spec cs (wellFormed_find wf n) (find_lookup_self s h n) (find_deref wf n)
    exact ⟨s', h', _, find_deref wf n, e, find_of_some h' hl', hx'⟩

/-- Witness of C10: from a new store, `Find("a")`, then a service under `a`, an app under
`b` and a second service under `a`; the later `Find("a")` returns the first pointer. -/
theorem find_is_get_or_create_witness :
    ∃ s' h' r₀,
      (NewNamespaceRecordStore.Find [] "a").2.1[(NewNamespaceRecordStore.Find [] "a").2.2]?
          = some r₀ ∧
        registerAll (NewNamespaceRecordStore.Find [] "a").1
            (NewNamespaceRecordStore.Find [] "a").2.1
            [.service "a" (some [("app", "x")]) "svc1",
              .app "b" (some [("app", "x")]) "deployment/d",
              .service "a" (some [("app", "y")]) "svc2"] = some (s', h') ∧
        s'.Find h' "a" = (s', h', (NewNamespaceRecordStore.Find [] "a").2.2) ∧
        h'[(NewNamespaceRecordStore.Find [] "a").2.2]?
          = some (List.foldl (applyRegistration "a") r₀
              [.service "a" (some [("app", "x")]) "svc1",
                .app "b" (some [("app", "x")]) "deployment/d",
                .service "a" (some [("app", "y")]) "svc2"]) :=
  (find_is_get_or_create NewNamespaceRecordStore [] (by decide) "a").2 _

/-! ## Further lemmas on `map2str` and the register methods -/

theorem joinChars_eq_nil {ps : List (String × String)} : joinChars ps = [] ↔ ps = [] := by
  cases ps with
  | nil => simp [joinChars]
  | cons p ps => simp [joinChars]

theorem map2str_eq_empty_iff {m : GoMap} (nd : NodupKeys m) :
    map2str m = "" ↔ ∀ p ∈ m, p.1 = "" ∨ p.2 = "" := by
  have h1 : map2str m = "" ↔ (map2str m).data = [] :=
    ⟨fun h => by rw [h], fun h => String.ext h⟩
  rw [h1, map2str_data, joinChars_eq_nil, List.eq_nil_iff_forall_not_mem]
  constructor
  · intro h p hp
    by_contra hk
    simp only [not_or] at hk
    exact h p ((mem_canonPairs nd).2 ⟨hp, hk⟩)
  · intro h p hp
    obtain ⟨hm, hk⟩ := (mem_canonPairs nd).1 hp
    rcases h p hm with e | e
    · exact hk.1 e
    · exact hk.2 e

theorem mapAssign_idem {β : Type} (m : List (String × β)) (k : String) (v : β) :
    mapAssign (mapAssign m k v) k v = mapAssign m k v := by
  induction m with
  | nil => simp [mapAssign]
  | cons p m ih =>
    obtain ⟨k', v'⟩ := p
    by_cases hk : k' = k
    · simp [mapAssign, hk]
    · simp [mapAssign, hk, ih]

/-! ## Further claims on `map2str` and the register methods -/

/-- C13: calling `AddServiceLabels`, or `AddAppLabels`, twice with the same arguments leaves
the record in the state that the first call leaves it in. -/
theorem register_twice_eq_once (r : NamespaceRecord) (labels : Option GoMap) (v : String) :
    ((r.AddServiceLabels labels v).1.AddServiceLabels labels v).1
        = (r.AddServiceLabels labels v).1 ∧
      ((r.AddAppLabels labels v).1.AddAppLabels labels v).1 = (r.AddAppLabels labels v).1 := by
  constructor
  · cases labels with
    | none => rfl
    | some m =>
      by_cases hm : m = []
      · subst hm; rfl
      · by_cases hc : mapIndex r.ServiceLabels (map2str m) = ""
        · rw [addServiceLabels_of_free r m v hm hc]
          by_cases hv : v = ""
          · subst hv
            rw [addServiceLabels_of_free _ m "" hm (mapIndex_mapAssign_self _ _ _)]
            simp [mapAssign_idem]
          · rw [addServiceLabels_of_collision _ m v hm
              (by simpa [mapIndex_mapAssign_self] using hv)]
        · rw [addServiceLabels_of_collision r m v hm hc,
            addServiceLabels_of_collision r m v hm hc]
  · cases labels with
    | none => rfl
    | some m =>
      by_cases hm : m = []
      · subst hm; rfl
      · by_cases hc : mapIndex r.AppLabels (map2str m) = ""
        · rw [addAppLabels_of_free r m v hm hc]
          by_cases hv : v = ""
          · subst hv
            rw [addAppLabels_of_free _ m "" hm (mapIndex_mapAssign_self _ _ _)]
            simp [mapAssign_idem]
          · rw [addAppLabels_of_collision _ m v hm
              (by simpa [mapIndex_mapAssign_self] using hv)]
        · rw [addAppLabels_of_collision r m v hm hc,
            addAppLabels_of_collision r m v hm hc]

/-- C16: the identity of a label mapping is the empty string exactly when every pair of the
mapping has an empty key or an empty value. -/
theorem map2str_empty_iff_all_dropped (m : GoMap) (nd : NodupKeys m) :
    map2str m = "" ↔ ∀ p ∈ m, p.1 = "" ∨ p.2 = "" :=
  map2str_eq_empty_iff nd

/-- Witness of C16: a mapping with two dropped pairs and one kept pair. -/
theorem map2str_empty_iff_all_dropped_witness :
    map2str [("a", ""), ("", "b"), ("x", "y")] = "" ↔
      ∀ p ∈ ([("a", ""), ("", "b"), ("x", "y")] : GoMap), p.1 = "" ∨ p.2 = "" :=
  map2str_empty_iff_all_dropped _ (by decide)

/-- C17: `AddAppLabels` on a record is `AddServiceLabels` on the record with its two maps
exchanged: the records after the calls are equal up to the exchange, and either both calls
return no error or both return an error, with the same text after the prefixes
`app already existed: ` and `service already existed: `. -/
theorem addAppLabels_eq_swapped_addServiceLabels (r : NamespaceRecord)
    (labels : Option GoMap) (v : String) :
    (r.AddAppLabels labels v).1 = swapRoles ((swapRoles r).AddServiceLabels labels v).1 ∧
      (((r.AddAppLabels labels v).2 = none ∧
          ((swapRoles r).AddServiceLabels labels v).2 = none) ∨
        ∃ rest, (r.AddAppLabels labels v).2 = some ("app already existed: " ++ rest) ∧
          ((swapRoles r).AddServiceLabels labels v).2
            = some ("service already existed: " ++ rest)) := by
  cases labels with
  | none => exact ⟨rfl, Or.inl ⟨rfl, rfl⟩⟩
  | some m =>
    by_cases hm : m = []
    · subst hm
      exact ⟨rfl, Or.inl ⟨rfl, rfl⟩⟩
    · by_cases hc : mapIndex r.AppLabels (map2str m) = ""
      · rw [addAppLabels_of_free r m v hm hc,
          addServiceLabels_of_free (swapRoles r) m v hm hc]
        exact ⟨rfl, Or.inl ⟨rfl, rfl⟩⟩
      · rw [addAppLabels_of_collision r m v hm hc,
          addServiceLabels_of_collision (swapRoles r) m v hm hc]
        refine ⟨rfl, Or.inr ⟨map2str m ++ " -> " ++ mapIndex r.AppLabels (map2str m), ?_, ?_⟩⟩
        · simp [String.append_assoc]
        · simp [String.append_assoc, swapRoles]

/-- C18: `AddServiceLabels` returns an error exactly when the mapping has at least one pair
and `ServiceLabels` holds a non-empty string under the identity; the message is then
`service already existed: `, the identity, ` -> ` and that string.  When the mapping has at
least one pair and the string under the identity is empty, also for a key that is present
with an empty owner label, no error is returned and the identity is then owned by `v`.  The
same holds of `AddAppLabels` with `AppLabels` and `app already existed: `. -/
theorem exact_collision_condition (r : NamespaceRecord) (labels : Option GoMap) (v : String) :
    (((r.AddServiceLabels labels v).2 ≠ none ↔
        ∃ m, labels = some m ∧ m ≠ [] ∧ mapIndex r.ServiceLabels (map2str m) ≠ "") ∧
      (∀ m, labels = some m → m ≠ [] →
        (mapIndex r.ServiceLabels (map2str m) ≠ "" →
          (r.AddServiceLabels labels v).2
            = some ("service already existed: " ++ map2str m ++ " -> "
                ++ mapIndex r.ServiceLabels (map2str m))) ∧
        (mapIndex r.ServiceLabels (map2str m) = "" →
          (r.AddServiceLabels labels v).2 = none ∧
            (r.AddServiceLabels labels v).1.ServiceLabels.lookup (map2str m) = some v))) ∧
    (((r.AddAppLabels labels v).2 ≠ none ↔
        ∃ m, labels = some m ∧ m ≠ [] ∧ mapIndex r.AppLabels (map2str m) ≠ "") ∧
      (∀ m, labels = some m → m ≠ [] →
        (mapIndex r.AppLabels (map2str m) ≠ "" →
          (r.AddAppLabels labels v).2
            = some ("app already existed: " ++ map2str m ++ " -> "
                ++ mapIndex r.AppLabels (map2str m))) ∧
        (mapIndex r.AppLabels (map2str m) = "" →
          (r.AddAppLabels labels v).2 = none ∧
            (r.AddAppLabels labels v).1.AppLabels.lookup (map2str m) = some v))) := by
  refine ⟨⟨?_, ?_⟩, ⟨?_, ?_⟩⟩
  · cases labels with
    | none => simp [NamespaceRecord.AddServiceLabels]
    | some m =>
      by_cases hm : m = []
      · subst hm
        simp [NamespaceRecord.AddServiceLabels]
      · by_cases hc : mapIndex r.ServiceLabels (map2str m) = ""
        · rw [addServiceLabels_of_free r m v hm hc]
          simp [hc]
        · rw [addServiceLabels_of_collision r m v hm hc]
          simp [hm, hc]
  · rintro m rfl hm
    constructor
    · intro hc
      rw [addServiceLabels_of_collision r m v hm hc]
    · intro hc
      rw [addServiceLabels_of_free r m v hm hc]
      exact ⟨rfl, lookup_mapAssign_self _ _ _⟩
  · cases labels with
    | none => simp [NamespaceRecord.AddAppLabels]
    | some m =>
      by_cases hm : m = []
      · subst hm
        simp [NamespaceRecord.AddAppLabels]
      · by_cases hc : mapIndex r.AppLabels (map2str m) = ""
        · rw [addAppLabels_of_free r m v hm hc]
          simp [hc]
        · rw [addAppLabels_of_collision r m v hm hc]
          simp [hm, hc]
  · rintro m rfl hm
    constructor
    · intro hc
      rw [addAppLabels_of_collision r m v hm hc]
    · intro hc
      rw [addAppLabels_of_free r m v hm hc]
      exact ⟨rfl, lookup_mapAssign_self _ _ _⟩

/-- Witness of C18: the identity `app=x` is present with the empty owner label; the call for
`svc2` returns no error and `svc2` owns the identity afterwards. -/
theorem exact_collision_condition_witness :
    (NamespaceRecord.AddServiceLabels ⟨"ns", [], [("app=x", "")]⟩ (some [("app", "x")])
        "svc2").2 = none ∧
      (NamespaceRecord.AddServiceLabels ⟨"ns", [], [("app=x", "")]⟩ (some [("app", "x")])
        "svc2").1.ServiceLabels.lookup (map2str [("app", "x")]) = some "svc2" :=
  ((exact_collision_condition ⟨"ns", [], [("app=x", "")]⟩ (some [("app", "x")]) "svc2").1.2
    [("app", "x")] rfl (by decide)).2 (by decide)

/-- C14: from a new store, the service `svc1` with the selector `app: x` under `a` is
registered without error, the service `svc2` with the same selector under `a` gets the error
naming the identity `app=x` and the owner `svc1`, and the deployment `dep1` with the same
selector under `a` is then registered without error. -/
theorem end_to_end_example :
    registerService NewNamespaceRecordStore [] "a" (some [("app", "x")]) "svc1"
        = some (⟨[("a", 0)]⟩, [⟨"a", [], [("app=x", "svc1")]⟩], none) ∧
      registerService ⟨[("a", 0)]⟩ [⟨"a", [], [("app=x", "svc1")]⟩] "a"
          (some [("app", "x")]) "svc2"
        = some (⟨[("a", 0)]⟩, [⟨"a", [], [("app=x", "svc1")]⟩],
            some "service already existed: app=x -> svc1") ∧
      registerApp ⟨[("a", 0)]⟩ [⟨"a", [], [("app=x", "svc1")]⟩] "a"
          (some [("app", "x")]) "deployment/dep1"
        = some (⟨[("a", 0)]⟩,
            [⟨"a", [("app=x", "deployment/dep1")], [("app=x", "svc1")]⟩], none) := by
  decide

/-! ## What the error of a collision determines -/

theorem message_role_ne (a b : String) :
    "service already existed: " ++ a ≠ "app already existed: " ++ b := by
  intro h
  have hd := congrArg String.data h
  rw [String.data_append, String.data_append] at hd
  have hs : "service already existed: ".data = 's' :: "ervice already existed: ".data := rfl
  have ha : "app already existed: ".data = 'a' :: "pp already existed: ".data := rfl
  rw [hs, ha] at hd
  simp only [List.cons_append, List.cons.injEq] at hd
  exact absurd hd.1 (by decide)

theorem message_inj (pre l o l' o' : String) (hl : ' ' ∉ l.data) (hl' : ' ' ∉ l'.data)
    (h : pre ++ l ++ " -> " ++ o = pre ++ l' ++ " -> " ++ o') : l = l' ∧ o = o' := by
  have hd := congrArg String.data h
  simp only [String.data_append, List.append_assoc] at hd
  have hd2 := List.append_cancel_left hd
  simp only [List.cons_append, List.nil_append] at hd2
  obtain ⟨h1, h2⟩ := append_sep_unique ' ' _ _ _ _ hl hl' (Or.inr ⟨_, rfl⟩)
    (Or.inr ⟨_, rfl⟩) hd2
  simp only [List.cons.injEq, true_and] at h2
  exact ⟨String.ext h1, String.ext h2⟩

theorem addServiceLabels_error (r : NamespaceRecord) (m : GoMap) (v : String)
    (h : (r.AddServiceLabels (some m) v).2 ≠ none) :
    (r.AddServiceLabels (some m) v).2
      = some ("service already existed: " ++ map2str m ++ " -> "
          ++ mapIndex r.ServiceLabels (map2str m)) := by
  by_cases hm : m = []
  · subst hm
    exact absurd rfl h
  · by_cases hc : mapIndex r.ServiceLabels (map2str m) = ""
    · rw [addServiceLabels_of_free r m v hm hc] at h
      exact absurd rfl h
    · rw [addServiceLabels_of_collision r m v hm hc]

theorem addAppLabels_error (r : NamespaceRecord) (m : GoMap) (v : String)
    (h : (r.AddAppLabels (some m) v).2 ≠ none) :
    (r.AddAppLabels (some m) v).2
      = some ("app already existed: " ++ map2str m ++ " -> "
          ++ mapIndex r.AppLabels (map2str m)) := by
  by_cases hm : m = []
  · subst hm
    exact absurd rfl h
  · by_cases hc : mapIndex r.AppLabels (map2str m) = ""
    · rw [addAppLabels_of_free r m v hm hc] at h
      exact absurd rfl h
    · rw [addAppLabels_of_collision r m v hm hc]

/-- C11, as stated, fails: two collisions in the namespaces `ns1` and `ns2` with the incoming
owners `svc2` and `svc3` return the same error, and so do two collisions with the identities
`a=b -> c` and `a=b` and the stored owners `d` and `c -> d`. -/
theorem collision_error_omits_namespace_and_owner :
    (NamespaceRecord.AddServiceLabels ⟨"ns1", [], [("app=x", "svc1")]⟩ (some [("app", "x")])
        "svc2").2 = some "service already existed: app=x -> svc1" ∧
      (NamespaceRecord.AddServiceLabels ⟨"ns2", [], [("app=x", "svc1")]⟩ (some [("app", "x")])
        "svc3").2 = some "service already existed: app=x -> svc1" ∧
      (NamespaceRecord.AddServiceLabels ⟨"ns", [], [("a=b -> c", "d")]⟩
        (some [("a", "b -> c")]) "e").2 = some "service already existed: a=b -> c -> d" ∧
      (NamespaceRecord.AddServiceLabels ⟨"ns", [], [("a=b", "c -> d")]⟩
        (some [("a", "b")]) "e").2 = some "service already existed: a=b -> c -> d" := by
  decide

theorem addServiceLabels_error_congr (r r₂ : NamespaceRecord) (m : GoMap) (v v₂ : String)
    (h : r₂.ServiceLabels = r.ServiceLabels) :
    (r₂.AddServiceLabels (some m) v₂).2 = (r.AddServiceLabels (some m) v).2 := by
  by_cases hm : m = []
  · subst hm
    rfl
  · by_cases hc : mapIndex r.ServiceLabels (map2str m) = ""
    · rw [addServiceLabels_of_free r m v hm hc,
        addServiceLabels_of_free r₂ m v₂ hm (by rw [h]; exact hc)]
    · rw [addServiceLabels_of_collision r m v hm hc,
        addServiceLabels_of_collision r₂ m v₂ hm (by rw [h]; exact hc), h]

theorem addAppLabels_error_congr (r r₂ : NamespaceRecord) (m : GoMap) (v v₂ : String)
    (h : r₂.AppLabels = r.AppLabels) :
    (r₂.AddAppLabels (some m) v₂).2 = (r.AddAppLabels (some m) v).2 := by
  by_cases hm : m = []
  · subst hm
    rfl
  · by_cases hc : mapIndex r.AppLabels (map2str m) = ""
    · rw [addAppLabels_of_free r m v hm hc,
        addAppLabels_of_free r₂ m v₂ hm (by rw [h]; exact hc)]
    · rw [addAppLabels_of_collision r m v hm hc,
        addAppLabels_of_collision r₂ m v₂ hm (by rw [h]; exact hc), h]

/-- C11, amended: a call on the nil mapping returns no error, and the error of a collision
is the text `service already existed: ` (resp. `app already existed: `), the identity,
` -> ` and the owner label that was stored.  The error is the same in every namespace and
for every incoming owner label.  It determines the role, and for identities that hold no
space it determines the identity and the stored owner label: an error of `AddServiceLabels`
is never an error of `AddAppLabels`, and two collisions of one method with equal errors have
the same identity and the same stored owner label. -/
theorem collision_error_determines (r₁ r₂ : NamespaceRecord) (m₁ m₂ : GoMap)
    (v₁ v₂ : String) :
    ((r₁.AddServiceLabels none v₁).2 = none ∧ (r₁.AddAppLabels none v₁).2 = none) ∧
    ((r₁.AddServiceLabels (some m₁) v₁).2 ≠ none →
      (r₁.AddServiceLabels (some m₁) v₁).2
        = some ("service already existed: " ++ map2str m₁ ++ " -> "
            ++ mapIndex r₁.ServiceLabels (map2str m₁))) ∧
    ((r₁.AddAppLabels (some m₁) v₁).2 ≠ none →
      (r₁.AddAppLabels (some m₁) v₁).2
        = some ("app already existed: " ++ map2str m₁ ++ " -> "
            ++ mapIndex r₁.AppLabels (map2str m₁))) ∧
    (∀ (ns v : String),
      (NamespaceRecord.AddServiceLabels { r₁ with Namespace := ns } (some m₁) v).2
          = (r₁.AddServiceLabels (some m₁) v₁).2 ∧
        (NamespaceRecord.AddAppLabels { r₁ with Namespace := ns } (some m₁) v).2
          = (r₁.AddAppLabels (some m₁) v₁).2) ∧
    ((r₁.AddServiceLabels (some m₁) v₁).2 ≠ none →
      (r₁.AddServiceLabels (some m₁) v₁).2 ≠ (r₂.AddAppLabels (some m₂) v₂).2) ∧
    (' ' ∉ (map2str m₁).data → ' ' ∉ (map2str m₂).data →
      (r₁.AddServiceLabels (some m₁) v₁).2 ≠ none →
      (r₁.AddServiceLabels (some m₁) v₁).2 = (r₂.AddServiceLabels (some m₂) v₂).2 →
      map2str m₁ = map2str m₂ ∧
        mapIndex r₁.ServiceLabels (map2str m₁) = mapIndex r₂.ServiceLabels (map2str m₂)) ∧
    (' ' ∉ (map2str m₁).data → ' ' ∉ (map2str m₂).data →
      (r₁.AddAppLabels (some m₁) v₁).2 ≠ none →
      (r₁.AddAppLabels (some m₁) v₁).2 = (r₂.AddAppLabels (some m₂) v₂).2 →
      map2str m₁ = map2str m₂ ∧
        mapIndex r₁.AppLabels (map2str m₁) = mapIndex r₂.AppLabels (map2str m₂)) := by
  refine ⟨⟨rfl, rfl⟩, addServiceLabels_error r₁ m₁ v₁, addAppLabels_error r₁ m₁ v₁,
    fun ns v => ⟨addServiceLabels_error_congr r₁ _ m₁ v₁ v rfl,
      addAppLabels_error_congr r₁ _ m₁ v₁ v rfl⟩, ?_, ?_, ?_⟩
  · intro h₁ e
    have e₂ : (r₂.AddAppLabels (some m₂) v₂).2 ≠ none := fun h => h₁ (e.trans h)
    rw [addServiceLabels_error r₁ m₁ v₁ h₁, addAppLabels_error r₂ m₂ v₂ e₂] at e
    simp only [Option.some.injEq, String.append_assoc] at e
    exact message_role_ne _ _ e
  · intro hs₁ hs₂ h₁ e
    have e₂ : (r₂.AddServiceLabels (some m₂) v₂).2 ≠ none := fun h => h₁ (e.trans h)
    rw [addServiceLabels_error r₁ m₁ v₁ h₁, addServiceLabels_error r₂ m₂ v₂ e₂] at e
    exact message_inj _ _ _ _ _ hs₁ hs₂ (Option.some.inj e)
  · intro hs₁ hs₂ h₁ e
    have e₂ : (r₂.AddAppLabels (some m₂) v₂).2 ≠ none := fun h => h₁ (e.trans h)
    rw [addAppLabels_error r₁ m₁ v₁ h₁, addAppLabels_error r₂ m₂ v₂ e₂] at e
    exact message_inj _ _ _ _ _ hs₁ hs₂ (Option.some.inj e)

/-- Witness of C11 amended: the service `svc2` with the selector `tier: db, app: x` collides
in `ns1` with `svc1`, and the service `svc3` with the selector `app: x, tier: db, zone: ""`
collides in `ns2` with `svc1`; the error has the stated text, and the equal errors give the
same identity and the same stored owner label. -/
theorem collision_error_determines_witness :
    (NamespaceRecord.AddServiceLabels
        ⟨"ns1", [], [("app=y", "svc0"), ("app=x,tier=db", "svc1")]⟩
        (some [("tier", "db"), ("app", "x")]) "svc2").2
        = some ("service already existed: " ++ map2str [("tier", "db"), ("app", "x")] ++ " -> "
            ++ mapIndex [("app=y", "svc0"), ("app=x,tier=db", "svc1")]
                (map2str [("tier", "db"), ("app", "x")])) ∧
      (map2str [("tier", "db"), ("app", "x")]
          = map2str [("app", "x"), ("tier", "db"), ("zone", "")] ∧
        mapIndex [("app=y", "svc0"), ("app=x,tier=db", "svc1")]
            (map2str [("tier", "db"), ("app", "x")])
          = mapIndex [("app=x,tier=db", "svc1")]
            (map2str [("app", "x"), ("tier", "db"), ("zone", "")])) :=
  ⟨(collision_error_determines ⟨"ns1", [], [("app=y", "svc0"), ("app=x,tier=db", "svc1")]⟩
      ⟨"ns2", [("app=x,tier=db", "deployment/d")], [("app=x,tier=db", "svc1")]⟩
      [("tier", "db"), ("app", "x")] [("app", "x"), ("tier", "db"), ("zone", "")]
      "svc2" "svc3").2.1 (by decide),
    (collision_error_determines ⟨"ns1", [], [("app=y", "svc0"), ("app=x,tier=db", "svc1")]⟩
      ⟨"ns2", [("app=x,tier=db", "deployment/d")], [("app=x,tier=db", "svc1")]⟩
      [("tier", "db"), ("app", "x")] [("app", "x"), ("tier", "db"), ("zone", "")]
      "svc2" "svc3").2.2.2.2.2.1 (by decide) (by decide) (by decide) (by decide)⟩

/-! ## The store only grows -/

theorem mem_keys_mapAssign {β : Type} (m : List (String × β)) (k₂ : String) (v : β)
    {k : String} (hk : k ∈ m.map Prod.fst) : k ∈ (mapAssign m k₂ v).map Prod.fst := by
  induction m with
  | nil => simp at hk
  | cons p m ih =>
    obtain ⟨k', v'⟩ := p
    by_cases e : k' = k₂
    · subst e
      simpa [mapAssign] using hk
    · simp only [mapAssign, e, if_false, List.map_cons, List.mem_cons] at hk ⊢
      rcases hk with hk | hk
      · exact Or.inl hk
      · exact Or.inr (ih hk)

theorem recordLe_refl (r : NamespaceRecord) : RecordLe r r :=
  ⟨fun _ hk => hk, fun _ hk => hk⟩

theorem recordLe_trans {r₁ r₂ r₃ : NamespaceRecord} (h₁ : RecordLe r₁ r₂)
    (h₂ : RecordLe r₂ r₃) : RecordLe r₁ r₃ :=
  ⟨fun k hk => h₂.1 k (h₁.1 k hk), fun k hk => h₂.2 k (h₁.2 k hk)⟩

theorem recordLe_addServiceLabels (r : NamespaceRecord) (labels : Option GoMap)
    (v : String) : RecordLe r (r.AddServiceLabels labels v).1 := by
  rcases addServiceLabels_cases r labels v with e | ⟨msg, e⟩ | ⟨l, e⟩
  · rw [e]; exact recordLe_refl r
  · rw [e]; exact recordLe_refl r
  · rw [e]; exact ⟨fun k hk => mem_keys_mapAssign _ _ _ hk, fun _ hk => hk⟩

theorem recordLe_addAppLabels (r : NamespaceRecord) (labels : Option GoMap) (v : String) :
    RecordLe r (r.AddAppLabels labels v).1 := by
  rcases addAppLabels_cases r labels v with e | ⟨msg, e⟩ | ⟨l, e⟩
  · rw [e]; exact recordLe_refl r
  · rw [e]; exact recordLe_refl r
  · rw [e]; exact ⟨fun _ hk => hk, fun k hk => mem_keys_mapAssign _ _ _ hk⟩

theorem stateLe_refl (s : NamespaceRecordStore) (h : Heap) : StateLe s h s h :=
  ⟨fun _ _ hl => hl, fun _ r hr => ⟨r, hr, recordLe_refl r⟩⟩

theorem stateLe_trans {s₁ s₂ s₃ : NamespaceRecordStore} {h₁ h₂ h₃ : Heap}
    (a : StateLe s₁ h₁ s₂ h₂) (b : StateLe s₂ h₂ s₃ h₃) : StateLe s₁ h₁ s₃ h₃ := by
  refine ⟨fun n p hl => b.1 n p (a.1 n p hl), fun p r hr => ?_⟩
  obtain ⟨r₂, hr₂, le₂⟩ := a.2 p r hr
  obtain ⟨r₃, hr₃, le₃⟩ := b.2 p r₂ hr₂
  exact ⟨r₃, hr₃, recordLe_trans le₂ le₃⟩

theorem stateLe_set {s : NamespaceRecordStore} {h : Heap} {q : Nat} {x y : NamespaceRecord}
    (hx : h[q]? = some x) (hle : RecordLe x y) : StateLe s h s (h.set q y) := by
  refine ⟨fun _ _ hl => hl, fun p r hr => ?_⟩
  by_cases e : q = p
  · subst e
    have hq : q < h.length := (List.getElem?_eq_some.1 hx).1
    rw [hx] at hr
    cases hr
    exact ⟨y, by simp [List.getElem?_set, hq], hle⟩
  · exact ⟨r, by simp [List.getElem?_set, e, hr], recordLe_refl r⟩

theorem stateLe_find (s : NamespaceRecordStore) (h : Heap) (n : String) :
    StateLe s h (s.Find h n).1 (s.Find h n).2.1 := by
  refine ⟨fun n₂ p hl => find_lookup_of_some s h n hl, fun p r hr => ?_⟩
  have hp : p < h.length := (List.getElem?_eq_some.1 hr).1
  exact ⟨r, by rw [find_heap_of_lt s h n hp, hr], recordLe_refl r⟩

theorem stateLe_runCall {s s' : NamespaceRecordStore} {h h' : Heap} {c : Call}
    (hc : runCall s h c = some (s', h')) : StateLe s h s' h' := by
  cases c with
  | find ns =>
    simp only [runCall, Option.some.injEq, Prod.mk.injEq] at hc
    rw [← hc.1, ← hc.2]
    exact stateLe_find s h ns
  | addServiceLabels q labels v =>
    cases hx : h[q]? with
    | none => simp [runCall, callAddServiceLabels, hx] at hc
    | some x =>
      simp only [runCall, callAddServiceLabels, hx, Option.some.injEq, Prod.mk.injEq] at hc
      rw [← hc.1, ← hc.2]
      exact stateLe_set hx (recordLe_addServiceLabels x labels v)
  | addAppLabels q labels v =>
    cases hx : h[q]? with
    | none => simp [runCall, callAddAppLabels, hx] at hc
    | some x =>
      simp only [runCall, callAddAppLabels, hx, Option.some.injEq, Prod.mk.injEq] at hc
      rw [← hc.1, ← hc.2]
      exact stateLe_set hx (recordLe_addAppLabels x labels v)

theorem stateLe_runCalls (cs : List Call) :
    ∀ {s s' : NamespaceRecordStore} {h h' : Heap}, runCalls s h cs = some (s', h') →
      StateLe s h s' h' := by
  induction cs with
  | nil =>
    intro s s' h h' hc
    simp only [runCalls, Option.some.injEq, Prod.mk.injEq] at hc
    rw [← hc.1, ← hc.2]
    exact stateLe_refl s h
  | cons c cs ih =>
    intro s s' h h' hc
    cases h₁ : runCall s h c with
    | none => simp [runCalls, h₁] at hc
    | some st =>
      obtain ⟨s₁, h₁'⟩ := st
      simp only [runCalls, h₁] at hc
      exact stateLe_trans (stateLe_runCall h₁) (ih hc)

theorem runCall_isSome (s : NamespaceRecordStore) (h : Heap) (c : Call)
    (hp : c.pointsToRecord h) : ∃ s' h', runCall s h c = some (s', h') := by
  cases c with
  | find ns => exact ⟨_, _, rfl⟩
  | addServiceLabels q labels v =>
    have hq : q < h.length := hp
    exact ⟨s, h.set q (h[q].AddServiceLabels labels v).1,
      by simp [runCall, callAddServiceLabels, List.getElem?_eq_getElem hq]⟩
  | addAppLabels q labels v =>
    have hq : q < h.length := hp
    exact ⟨s, h.set q (h[q].AddAppLabels labels v).1,
      by simp [runCall, callAddAppLabels, List.getElem?_eq_getElem hq]⟩

theorem stateLe_keys {s s' : NamespaceRecordStore} {h h' : Heap} (le : StateLe s h s' h')
    {n : String} (hn : n ∈ s.data.map Prod.fst) : n ∈ s'.data.map Prod.fst := by
  cases hl : s.data.lookup n with
  | none => exact absurd hn (lookup_eq_none_iff.1 hl)
  | some p =>
    by_contra hc
    have := le.1 n p hl
    rw [lookup_eq_none_iff.2 hc] at this
    cases this

theorem stateLe_recordOf {s s' : NamespaceRecordStore} {h h' : Heap}
    (le : StateLe s h s' h') {n : String} {r : NamespaceRecord}
    (hr : recordOf s h n = some r) : ∃ r', recordOf s' h' n = some r' ∧ RecordLe r r' := by
  unfold recordOf at hr ⊢
  cases hl : s.data.lookup n with
  | none => simp [hl] at hr
  | some p =>
    simp only [hl] at hr
    obtain ⟨r', hr', hle⟩ := le.2 p r hr
    exact ⟨r', by simp [le.1 n p hl, hr'], hle⟩

/-- C12: on every store and memory, so on those reached from a new store, a call that is
`Find` or a register call on a record of the memory returns, and after any sequence of
calls every namespace that was a key of the store is still one, and the record of each
namespace still has every key that its `ServiceLabels` and its `AppLabels` had. -/
theorem store_grows_monotonically (s : NamespaceRecordStore) (h : Heap) :
    (∀ c : Call, c.pointsToRecord h → ∃ s' h', runCall s h c = some (s', h')) ∧
    (∀ (cs : List Call) (s' : NamespaceRecordStore) (h' : Heap),
      runCalls s h cs = some (s', h') →
        (∀ n ∈ s.data.map Prod.fst, n ∈ s'.data.map Prod.fst) ∧
        (∀ n r, recordOf s h n = some r →
          ∃ r', recordOf s' h' n = some r' ∧
            (∀ k ∈ r.ServiceLabels.map Prod.fst, k ∈ r'.ServiceLabels.map Prod.fst) ∧
            (∀ k ∈ r.AppLabels.map Prod.fst, k ∈ r'.AppLabels.map Prod.fst))) := by
  refine ⟨fun c hp => runCall_isSome s h c hp, fun cs s' h' hc => ?_⟩
  have le := stateLe_runCalls cs hc
  exact ⟨fun n hn => stateLe_keys le hn, fun n r hr => stateLe_recordOf le hr⟩

/-- Witness of C12: from the store that holds the namespace `a` with one service identity,
`Find("b")`, an app registration on the new record and a second service registration on the
record of `a`. -/
theorem store_grows_monotonically_witness :
    (∀ n ∈ [("a", 0)].map Prod.fst,
        n ∈ [("a", 0), ("b", 1)].map Prod.fst) ∧
      (∀ n r, recordOf ⟨[("a", 0)]⟩ [⟨"a", [], [("app=x", "svc1")]⟩] n = some r →
        ∃ r', recordOf ⟨[("a", 0), ("b", 1)]⟩
              [⟨"a", [], [("app=x", "svc1"), ("tier=db", "svc2")]⟩,
                ⟨"b", [("app=x", "deployment/d")], []⟩] n = some r' ∧
          (∀ k ∈ r.ServiceLabels.map Prod.fst, k ∈ r'.ServiceLabels.map Prod.fst) ∧
          (∀ k ∈ r.AppLabels.map Prod.fst, k ∈ r'.AppLabels.map Prod.fst)) :=
  (store_grows_monotonically ⟨[("a", 0)]⟩ [⟨"a", [], [("app=x", "svc1")]⟩]).2
    [.find "b", .addAppLabels 1 (some [("app", "x")]) "deployment/d",
      .addServiceLabels 0 (some [("tier", "db")]) "svc2"]
    ⟨[("a", 0), ("b", 1)]⟩
    [⟨"a", [], [("app=x", "svc1"), ("tier=db", "svc2")]⟩,
      ⟨"b", [("app=x", "deployment/d")], []⟩]
    (by decide)

/-! ## The reports of the service loop -/

theorem currentRecord_find_set_self {s : NamespaceRecordStore} {h : Heap}
    (wf : WellFormed s h) (n : String) (x : NamespaceRecord) :
    currentRecord (s.Find h n).1 ((s.Find h n).2.1.set (s.Find h n).2.2 x) n = x := by
  simp [currentRecord, recordOf_find_set_self wf n x]

theorem currentRecord_find_set_of_ne {s : NamespaceRecordStore} {h : Heap}
    (wf : WellFormed s h) {n n₂ : String} (hne : n₂ ≠ n) (x : NamespaceRecord) :
    currentRecord (s.Find h n).1 ((s.Find h n).2.1.set (s.Find h n).2.2 x) n₂
      = currentRecord s h n₂ := by
  simp [currentRecord, recordOf_find_set_of_ne wf hne x]

theorem ownerOf_append_of_ne (pre : List Service) (t : Service) {ns l : String}
    (hne : ¬ (t.Namespace = ns ∧ identityOf t.Selector = l)) :
    ownerOf (pre ++ [t]) ns l = ownerOf pre ns l := by
  simp only [ownerOf, List.find?_append]
  have ht : [t].find? (fun u => decide (u.Namespace = ns ∧ identityOf u.Selector = l))
      = none := by
    simp [List.find?, hne]
  rw [ht]
  cases pre.find? (fun u => decide (u.Namespace = ns ∧ identityOf u.Selector = l)) <;> rfl

theorem ownerOf_append_of_found (pre : List Service) (t : Service) {ns l : String}
    {u : Service}
    (hu : pre.find? (fun u => decide (u.Namespace = ns ∧ identityOf u.Selector = l)) = some u) :
    ownerOf (pre ++ [t]) ns l = ownerOf pre ns l := by
  unfold ownerOf
  rw [List.find?_append, hu]
  rfl

theorem ownerOf_append_of_not_found (pre : List Service) (t : Service)
    (hu : pre.find? (sameSelector t) = none) :
    ownerOf (pre ++ [t]) t.Namespace (identityOf t.Selector) = t.Name := by
  have hu' : pre.find?
      (fun u => decide (u.Namespace = t.Namespace ∧ identityOf u.Selector = identityOf t.Selector))
      = none := hu
  unfold ownerOf
  rw [List.find?_append, hu']
  simp [List.find?]

theorem ownerOf_of_found {pre : List Service} {t u : Service}
    (hu : pre.find? (sameSelector t) = some u) :
    ownerOf pre t.Namespace (identityOf t.Selector) = u.Name := by
  have hu' : pre.find?
      (fun u => decide (u.Namespace = t.Namespace ∧ identityOf u.Selector = identityOf t.Selector))
      = some u := hu
  unfold ownerOf
  rw [hu']

theorem ownerOf_of_not_found {pre : List Service} {t : Service}
    (hu : pre.find? (sameSelector t) = none) :
    ownerOf pre t.Namespace (identityOf t.Selector) = "" := by
  have hu' : pre.find?
      (fun u => decide (u.Namespace = t.Namespace ∧ identityOf u.Selector = identityOf t.Selector))
      = none := hu
  unfold ownerOf
  rw [hu']

theorem selector_of_identity_ne {t : Service} (h : identityOf t.Selector ≠ "") :
    ∃ m, t.Selector = some m ∧ m ≠ [] ∧ identityOf t.Selector = map2str m := by
  cases hs : t.Selector with
  | none =>
    rw [hs] at h
    exact absurd rfl h
  | some m =>
    rw [hs] at h
    exact ⟨m, rfl, ne_nil_of_map2str_ne h, rfl⟩

theorem serviceLoop_spec (items : List Service) :
    ∀ (pre : List Service) (s : NamespaceRecordStore) (h : Heap) (log : List String),
      WellFormed s h →
      (∀ ns l, mapIndex (currentRecord s h ns).ServiceLabels l = ownerOf pre ns l) →
      (∀ t ∈ pre, t.Name ≠ "") →
      (∀ t ∈ items, t.Name ≠ "" ∧ identityOf t.Selector ≠ "") →
      ∃ s' h', serviceLoop s h items log = some (s', h', log ++ reportsAfter pre items) := by
  induction items with
  | nil =>
    intro pre s h log _ _ _ _
    exact ⟨s, h, by simp [serviceLoop, reportsAfter]⟩
  | cons t ts ih =>
    intro pre s h log wf hinv hpre hitems
    obtain ⟨hname, hid⟩ := hitems t (List.mem_cons_self _ _)
    obtain ⟨m, hsel, hm, hidm⟩ := selector_of_identity_ne hid
    have hts : ∀ u ∈ ts, u.Name ≠ "" ∧ identityOf u.Selector ≠ "" :=
      fun u hu => hitems u (List.mem_cons_of_mem _ hu)
    have hpre' : ∀ u ∈ pre ++ [t], u.Name ≠ "" := by
      intro u hu
      rcases List.mem_append.1 hu with hu | hu
      · exact hpre u hu
      · rw [List.mem_singleton.1 hu]; exact hname
    have e := registerService_eq wf t.Namespace t.Selector t.Name
    have hcur := hinv t.Namespace (identityOf t.Selector)
    rw [hsel] at e
    rw [hidm] at hcur
    cases hfind : pre.find? (sameSelector t) with
    | none =>
      have hfree : mapIndex (currentRecord s h t.Namespace).ServiceLabels (map2str m) = "" := by
        rw [hcur, ← hidm]; exact ownerOf_of_not_found hfind
      rw [addServiceLabels_of_free _ m t.Name hm hfree] at e
      have hinv' : ∀ ns l,
          mapIndex (currentRecord (s.Find h t.Namespace).1
            ((s.Find h t.Namespace).2.1.set (s.Find h t.Namespace).2.2
              { currentRecord s h t.Namespace with
                ServiceLabels :=
                  mapAssign (currentRecord s h t.Namespace).ServiceLabels (map2str m) t.Name })
            ns).ServiceLabels l = ownerOf (pre ++ [t]) ns l := by
        intro ns l
        by_cases hns : ns = t.Namespace
        · subst hns
          rw [currentRecord_find_set_self wf]
          by_cases hl : l = map2str m
          · subst hl
            rw [mapIndex_mapAssign_self, ← hidm, ownerOf_append_of_not_found pre t hfind]
          · rw [mapIndex_mapAssign_of_ne _ _ hl, hinv,
              ownerOf_append_of_ne pre t (fun hc => hl (hidm ▸ hc.2.symm))]
        · rw [currentRecord_find_set_of_ne wf hns, hinv,
            ownerOf_append_of_ne pre t (fun hc => hns hc.1.symm)]
      obtain ⟨s', h', e'⟩ := ih (pre ++ [t]) _ _ log (wellFormed_find_set wf t.Namespace _)
        hinv' hpre' hts
      refine ⟨s', h', ?_⟩
      simp only [serviceLoop, hsel, e, reportsAfter, hfind, List.nil_append]
      exact e'
    | some u =>
      have hu : u.Name ≠ "" := hpre u (List.mem_of_find?_eq_some hfind)
      have hown : ownerOf pre t.Namespace (map2str m) = u.Name := by
        rw [← hidm]; exact ownerOf_of_found hfind
      have hcol : mapIndex (currentRecord s h t.Namespace).ServiceLabels (map2str m) ≠ "" := by
        rw [hcur, hown]; exact hu
      rw [addServiceLabels_of_collision _ m t.Name hm hcol, hcur, hown] at e
      have hinv' : ∀ ns l,
          mapIndex (currentRecord (s.Find h t.Namespace).1
            ((s.Find h t.Namespace).2.1.set (s.Find h t.Namespace).2.2
              (currentRecord s h t.Namespace)) ns).ServiceLabels l
            = ownerOf (pre ++ [t]) ns l := by
        intro ns l
        have hcr : currentRecord (s.Find h t.Namespace).1
            ((s.Find h t.Namespace).2.1.set (s.Find h t.Namespace).2.2
              (currentRecord s h t.Namespace)) ns = currentRecord s h ns := by
          by_cases hns : ns = t.Namespace
          · subst hns
            exact currentRecord_find_set_self wf _ _
          · exact currentRecord_find_set_of_ne wf hns _
        rw [hcr, hinv]
        by_cases hk : t.Namespace = ns ∧ identityOf t.Selector = l
        · obtain ⟨h1, h2⟩ := hk
          subst h1
          subst h2
          exact (ownerOf_append_of_found pre t hfind).symm
        · exact (ownerOf_append_of_ne pre t hk).symm
      obtain ⟨s', h', e'⟩ := ih (pre ++ [t]) _ _
        (log ++ [t.Namespace ++ ": service " ++ t.Name ++ ": "
          ++ ("service already existed: " ++ map2str m ++ " -> " ++ u.Name)])
        (wellFormed_find_set wf t.Namespace _) hinv' hpre' hts
      refine ⟨s', h', ?_⟩
      have hio : identityOf (some m) = map2str m := rfl
      simp only [serviceLoop, hsel, e, reportsAfter, hfind, reportLine, hio]
      rw [e']
      simp [List.append_assoc]

theorem toFinset_append_singleton {α : Type} [DecidableEq α] (l : List α) (a : α) :
    (l ++ [a]).toFinset = insert a l.toFinset := by
  ext x
  simp only [List.mem_toFinset, List.mem_append, List.mem_singleton, Finset.mem_insert]
  exact or_comm

theorem find?_sameSelector_eq_none (pre : List Service) (t : Service) :
    pre.find? (sameSelector t) = none ↔ selectorKey t ∉ pre.map selectorKey := by
  rw [List.find?_eq_none]
  simp only [sameSelector, decide_eq_true_eq, List.mem_map, selectorKey, Prod.mk.injEq,
    not_exists, not_and]

theorem reportsAfter_length (items : List Service) :
    ∀ pre : List Service,
      (reportsAfter pre items).length + ((pre ++ items).map selectorKey).toFinset.card
        = items.length + (pre.map selectorKey).toFinset.card := by
  induction items with
  | nil =>
    intro pre
    simp [reportsAfter]
  | cons t ts ih =>
    intro pre
    have hih := ih (pre ++ [t])
    have hall : pre ++ [t] ++ ts = pre ++ t :: ts := by simp
    have hins : ((pre ++ [t]).map selectorKey).toFinset
        = insert (selectorKey t) (pre.map selectorKey).toFinset := by
      rw [List.map_append]
      exact toFinset_append_singleton _ _
    rw [hall, hins] at hih
    cases hfind : pre.find? (sameSelector t) with
    | none =>
      have hnot := (find?_sameSelector_eq_none pre t).1 hfind
      rw [Finset.card_insert_of_not_mem (by simpa using hnot)] at hih
      simp only [reportsAfter, hfind, List.nil_append, List.length_cons]
      omega
    | some u =>
      have hmem : selectorKey t ∈ pre.map selectorKey := by
        by_contra hc
        rw [(find?_sameSelector_eq_none pre t).2 hc] at hfind
        cases hfind
      rw [Finset.card_insert_of_mem (by simpa using hmem)] at hih
      simp only [reportsAfter, hfind, List.singleton_append, List.length_cons]
      omega

/-- C15: the service loop of `main`, run from a new store on services with non-empty names
and non-empty identities, returns and prints the reports of `reportsAfter`: one line for
each service that has an earlier service with its namespace and identity, none for the
others, in the order of the list, each naming the earliest such service as the owner; and
the number of lines plus the number of distinct pairs of namespace and identity is the
length of the list. -/
theorem reports_follow_arrival_order (items : List Service)
    (hvalid : ∀ t ∈ items, t.Name ≠ "" ∧ identityOf t.Selector ≠ "") :
    (∃ s h, serviceLoop NewNamespaceRecordStore [] items []
        = some (s, h, reportsAfter [] items)) ∧
      (reportsAfter [] items).length + (items.map selectorKey).toFinset.card
        = items.length := by
  constructor
  · obtain ⟨s, h, e⟩ := serviceLoop_spec items [] NewNamespaceRecordStore [] []
      (wellFormed_new []) (fun _ _ => rfl) (fun _ ht => absurd ht (List.not_mem_nil _)) hvalid
    exact ⟨s, h, by simpa using e⟩
  · simpa using reportsAfter_length items []

/-- Witness of C15: four services with the selector `app: x`, three of them under `a` and
one under `b`; the second and the fourth get a report that names `svc1`. -/
theorem reports_follow_arrival_order_witness :
    (∃ s h, serviceLoop NewNamespaceRecordStore []
        [⟨"a", "svc1", some [("app", "x")]⟩, ⟨"a", "svc2", some [("app", "x")]⟩,
          ⟨"b", "svc3", some [("app", "x")]⟩, ⟨"a", "svc4", some [("app", "x")]⟩] []
        = some (s, h, reportsAfter []
            [⟨"a", "svc1", some [("app", "x")]⟩, ⟨"a", "svc2", some [("app", "x")]⟩,
              ⟨"b", "svc3", some [("app", "x")]⟩, ⟨"a", "svc4", some [("app", "x")]⟩])) ∧
      reportsAfter []
          [⟨"a", "svc1", some [("app", "x")]⟩, ⟨"a", "svc2", some [("app", "x")]⟩,
            ⟨"b", "svc3", some [("app", "x")]⟩, ⟨"a", "svc4", some [("app", "x")]⟩]
        = ["a: service svc2: service already existed: app=x -> svc1",
            "a: service svc4: service already existed: app=x -> svc1"] :=
  ⟨(reports_follow_arrival_order
      [⟨"a", "svc1", some [("app", "x")]⟩, ⟨"a", "svc2", some [("app", "x")]⟩,
        ⟨"b", "svc3", some [("app", "x")]⟩, ⟨"a", "svc4", some [("app", "x")]⟩]
      (by decide)).1, by decide⟩

end AutoCheckDups
